import Mathlib

/-! networkfs: the adapter between file-system operations and the remote protocol.

A shallow embedding of `networkfs-api.c` and `networkfs-impl.c`.

Conventions of the embedding.

* A byte is a `Nat` below 256.  A C string is the list of bytes found at the
  pointer; it ends at the first `0` (or at the end of the list).
* A destination buffer that the code fills through a raw pointer is a memory
  image `Nat → Nat` indexed from that pointer; every store is also recorded as
  an `(index, value)` pair, so that the indices touched can be inspected.
* Whether plain `char` is signed is fixed by the compiler, not by the source:
  it is signed for x86 builds of the kernels before 6.2 and unsigned with
  `-funsigned-char` (6.2 and later).  The embedding takes it as the Boolean
  `char_signed`.
* `ssize_t`, `loff_t` and `int64_t` are `Int` reduced into the signed 64-bit
  range by `s64`; `size_t` and `unsigned long` are `Nat` reduced by `u64`.
* A result `none` of an operation stands for a memory fault (a store or load
  through a null pointer or outside the object pointed to); for the loop of
  `networkfs_iterate`, which takes fuel, also for fuel exhausted.
-/

set_option linter.dupNamespace false
set_option maxRecDepth 100000

namespace networkfs

/-! ## Machine integers -/

/-- Reduction of an integer into the range of a signed 64-bit type. -/
def s64 (x : Int) : Int := (x + 9223372036854775808) % 18446744073709551616 - 9223372036854775808

/-- Reduction of an integer into the range of an unsigned 64-bit type. -/
def u64 (x : Int) : Nat := (x % 18446744073709551616).toNat

/-- Reduction of an integer into the range of `unsigned int`. -/
def u32 (x : Int) : Nat := (x % 4294967296).toNat

/-! ## Formatting (`sprintf`) -/

/-- The character code of one lower-case hexadecimal digit. -/
def hex_digit (d : Nat) : Nat := if d < 10 then 48 + d else 87 + d

/-- Hexadecimal digits of `v`, most significant first; `fuel` bounds their number. -/
def hex_digits_core : Nat → Nat → List Nat → List Nat
  | 0, _, acc => acc
  | fuel + 1, v, acc =>
    if v / 16 = 0 then hex_digit (v % 16) :: acc
    else hex_digits_core fuel (v / 16) (hex_digit (v % 16) :: acc)

/-- The conversion `%02x` of an `unsigned int`: at least two digits, padded with `0`. -/
def fmt_02x (v : Nat) : List Nat :=
  let ds := hex_digits_core 8 v []
  List.replicate (2 - ds.length) 48 ++ ds

/-- The value of `src[i]` after the integer promotion of a variadic call. -/
def char_to_int (char_signed : Bool) (b : Nat) : Int :=
  if char_signed && decide (128 ≤ b) then (b : Int) - 256 else (b : Int)

/-- The characters `sprintf(p, "%%%02x", c)` produces, its terminator included. -/
def sprintf_pct_02x (char_signed : Bool) (c : Nat) : List Nat :=
  37 :: fmt_02x (u32 (char_to_int char_signed c)) ++ [0]

/-! ## Raw memory -/

/-- The byte store `p[i] = v`. -/
def store (m : Nat → Nat) (i v : Nat) : Nat → Nat := fun j => if j = i then v else m j

/-- The stores that write the bytes `bs` at `p + i`, `p + i + 1`, ... -/
def stores_at : Nat → List Nat → List (Nat × Nat)
  | _, [] => []
  | i, b :: bs => (i, b) :: stores_at (i + 1) bs

/-- Performs a sequence of stores, first to last. -/
def apply_stores (m : Nat → Nat) : List (Nat × Nat) → Nat → Nat
  | [] => m
  | s :: ss => apply_stores (store m s.1 s.2) ss

/-- The value of `strlen`. -/
def strlen (s : List Nat) : Nat := (s.takeWhile (fun b => decide (b ≠ 0))).length

/-- The C string at a pointer: the bytes before the first `0`. -/
def c_str (s : List Nat) : List Nat := s.takeWhile (fun b => decide (b ≠ 0))

/-- The C string found in a memory image, reading at most `cap` bytes from index `i`. -/
def c_str_at (m : Nat → Nat) : Nat → Nat → List Nat
  | 0, _ => []
  | cap + 1, i => if m i = 0 then [] else m i :: c_str_at m cap (i + 1)

/-! ## The wire codec (`networkfs-api.c`) -/

/-- The stores of the loop of `networkfs_api_process_string`, from index `i` on,
for the bytes of the source that remain. -/
def process_string_loop (char_signed : Bool) : List Nat → Nat → List (Nat × Nat)
  | [], _ => []
  | c :: rest, i =>
    stores_at (i * 3) (sprintf_pct_02x char_signed c) ++ process_string_loop char_signed rest (i + 1)

/-- Every store `networkfs_api_process_string(dest, src)` performs on `dest`, in order. -/
def process_string_stores (char_signed : Bool) (src : List Nat) : List (Nat × Nat) :=
  let len := strlen src
  process_string_loop char_signed (src.take len) 0 ++ [(len * 3, 0)]

/-- The function `networkfs_api_process_string`: the content of `dest` afterwards. -/
def networkfs_api_process_string (char_signed : Bool) (dest : Nat → Nat) (src : List Nat) :
    Nat → Nat :=
  apply_stores dest (process_string_stores char_signed src)

/-- The encoding as the spec words it: each byte becomes a percent sign and the two
hexadecimal digits of its value. -/
def spec_encode : List Nat → List Nat
  | [] => []
  | b :: bs => 37 :: hex_digit (b / 16) :: hex_digit (b % 16) :: spec_encode bs

/-! ## Constants and records (`networkfs-api.h`) -/

/-- The macro `NETWORKFS_API_ENTRY_MAX_NAME_LEN`. -/
def NETWORKFS_API_ENTRY_MAX_NAME_LEN : Nat := 256

/-- The macro `NETWORKFS_API_ENTRY_MAX_FILE`. -/
def NETWORKFS_API_ENTRY_MAX_FILE : Nat := 512

/-- Directory entry type `DT_DIR`. -/
def DT_DIR : Nat := 4

/-- Directory entry type `DT_REG`. -/
def DT_REG : Nat := 8

/-- Error number `ENOMEM`. -/
def ENOMEM : Int := 12

/-- Error number `EFAULT`. -/
def EFAULT : Int := 14

/-- Error number `EINVAL`. -/
def EINVAL : Int := 22

/-- Error number `EDQUOT`. -/
def EDQUOT : Int := 122

/-- The largest `int`; the user-copy helpers refuse longer copies. -/
def INT_MAX : Nat := 2147483647

/-- The cast `(int)` of a 64-bit value. -/
def s32 (x : Int) : Int := (x + 2147483648) % 4294967296 - 2147483648

/-- The record `struct entry`. -/
structure entry where
  entry_type : Nat
  ino : Nat
  name : List Nat
deriving DecidableEq, Repr

/-- The record `struct entries`: a count and an array of 16 entries. -/
structure entries where
  entries_count : Nat
  entries : List entry
deriving DecidableEq, Repr

/-- The record `struct content`: a length and an array of 513 bytes. -/
structure content where
  content_length : Nat
  content : List Nat
deriving DecidableEq, Repr

/-- The value of `sizeof(struct content)` on LP64: 8 + 513 bytes, rounded up to a multiple of 8. -/
def sizeof_content : Nat := 528

/-! ## The transport (`http.h`, external) -/

/-- The arguments of one `networkfs_http_call`: method, response capacity and the
ordered `(name, value)` pairs. -/
structure http_request where
  method : String
  response_buffer_size : Nat
  args : List (String × List Nat)
deriving DecidableEq, Repr

/-- Decimal digits of `v`, most significant first; `fuel` bounds their number. -/
def dec_digits_core : Nat → Nat → List Nat → List Nat
  | 0, _, acc => acc
  | fuel + 1, v, acc =>
    if v / 10 = 0 then (48 + v % 10) :: acc
    else dec_digits_core fuel (v / 10) ((48 + v % 10) :: acc)

/-- The conversion `%lu` of an `unsigned long` (at most 20 digits). -/
def fmt_lu (v : Nat) : List Nat := dec_digits_core 20 v []

/-- The call `sprintf(buf, "%lu", v)` on a local array of `cap` bytes: the string left
in the array, or `none` when the digits and the terminator do not fit. -/
def sprintf_lu (cap : Nat) (v : Nat) : Option (List Nat) :=
  if (fmt_lu v).length + 1 ≤ cap then some (fmt_lu v) else none

/-- The size `sizeof(unsigned long) + 1` of the arrays that hold a formatted inode number. -/
def ino_str_size : Nat := 9

/-! ## `networkfs_api_read`, `networkfs_api_write` -/

/-- The function `networkfs_api_read`.  `kmalloc` tells whether the allocation of the
record succeeds; `http` is the transport, returning the status and the record it left
in the response buffer.  The result is the status and the record behind
`*read_content_ptr` (absent when the pointer is null or freed). -/
def networkfs_api_read {σ : Type} (http : σ → http_request → σ × Int × content)
    (kmalloc : Bool) (st : σ) (ino : Nat) : Option (σ × Int × Option content) :=
  if kmalloc = false then some (st, -ENOMEM, none)
  else
    match sprintf_lu ino_str_size ino with
    | none => none
    | some ino_str =>
      let r := http st ⟨"read", sizeof_content, [("inode", ino_str)]⟩
      some (r.1, r.2.1, if r.2.1 = 0 then some r.2.2 else none)

/-- The function `networkfs_api_write`.  `kmalloc` is the allocation of
`NETWORKFS_API_ENTRY_MAX_FILE * 3 + 1` bytes (its initial content), or `none` when it
fails; `http` is the transport, returning the status. -/
def networkfs_api_write {σ : Type} (char_signed : Bool) (http : σ → http_request → σ × Int)
    (kmalloc : Option (Nat → Nat)) (st : σ) (ino : Nat) (content : List Nat) :
    Option (σ × Int) :=
  match kmalloc with
  | none => some (st, -ENOMEM)
  | some processed_content =>
    let cap := NETWORKFS_API_ENTRY_MAX_FILE * 3 + 1
    if (process_string_stores char_signed content).all (fun s => decide (s.1 < cap)) then
      let processed := networkfs_api_process_string char_signed processed_content content
      match sprintf_lu ino_str_size ino with
      | none => none
      | some ino_str =>
        some (http st ⟨"write", 0, [("inode", ino_str), ("content", c_str_at processed cap 0)]⟩)
    else none

/-! ## File operations (`networkfs-impl.c`) -/

/-- The fields of `struct file` and of its inode that the file operations use. -/
structure file where
  private_data : Option (List Nat)
  i_size : Int
  i_ino : Nat
  f_pos : Int
  o_append : Bool
deriving DecidableEq, Repr

/-- The call `generic_file_llseek(filp, offset, SEEK_SET)` on a mount whose
`s_maxbytes` is `NETWORKFS_API_ENTRY_MAX_FILE`: the position moves unless the offset
is negative or beyond the maximum. -/
def generic_file_llseek_set (filp : file) (offset : Int) : file :=
  if 0 ≤ offset ∧ offset ≤ (NETWORKFS_API_ENTRY_MAX_FILE : Int) then { filp with f_pos := offset }
  else filp

/-- The function `networkfs_file_open`: the transport state, the file and the value returned. -/
def networkfs_file_open {σ : Type} (http : σ → http_request → σ × Int × content)
    (kmalloc : Bool) (st : σ) (filp : file) : Option (σ × file × Int) :=
  match networkfs_api_read http kmalloc st filp.i_ino with
  | none => none
  | some (st1, code, some c) =>
    if code = 0 then
      let opened := { filp with private_data := some c.content, i_size := s64 c.content_length }
      some (st1, if filp.o_append then generic_file_llseek_set opened (s64 c.content_length) else opened,
        s32 code)
    else some (st1, { filp with private_data := none }, s32 code)
  | some (st1, code, none) =>
    if code = 0 then none else some (st1, { filp with private_data := none }, s32 code)

/-- The helper `copy_to_user(to, from + off, n)`.  `ucap` bytes are writable at `to`;
`from` is the kernel buffer.  Gives the number of bytes not copied and the bytes stored
at `to`; `none` when the kernel side of the copy is not inside the buffer. -/
def copy_to_user (ucap : Nat) (src : Option (List Nat)) (off : Int) (n : Nat) :
    Option (Nat × List Nat) :=
  if n = 0 then some (0, [])
  else if INT_MAX < n then some (n, [])
  else
    match src with
    | none => none
    | some buf =>
      if 0 ≤ off ∧ off.toNat + n ≤ buf.length then
        some (n - min n ucap, (buf.drop off.toNat).take (min n ucap))
      else none

/-- The helper `copy_from_user(to + off, from, n)`.  `ubuf` holds the bytes readable
at `from`.  Gives the number of bytes not copied and the kernel buffer afterwards (the
part not copied is zeroed); `none` when the kernel side is not inside the buffer. -/
def copy_from_user (dst : Option (List Nat)) (off : Int) (ubuf : List Nat) (n : Nat) :
    Option (Nat × Option (List Nat)) :=
  if n = 0 then some (0, dst)
  else if INT_MAX < n then some (n, dst)
  else
    match dst with
    | none => none
    | some buf =>
      if 0 ≤ off ∧ off.toNat + n ≤ buf.length then
        some (n - min n ubuf.length,
          some (buf.take off.toNat ++ (ubuf.take n ++ List.replicate (n - min n ubuf.length) 0)
            ++ buf.drop (off.toNat + n)))
      else none

/-- What a call of `networkfs_file_read` leaves behind. -/
structure read_result where
  ret : Int
  offset : Int
  copied_indices : List Nat
  to_user : List Nat
  uncopied : Nat
deriving DecidableEq, Repr

/-- The function `networkfs_file_read(filp, buffer, len, offset)`; `ucap` is the number
of bytes writable at `buffer`.  The result holds the value returned, `*offset`
afterwards, the indices of the content buffer handed to `copy_to_user`, the bytes
stored at `buffer`, and the value `copy_to_user` returned. -/
def networkfs_file_read (filp : file) (ucap : Nat) (len : Nat) (offset : Int) :
    Option read_result :=
  let max_read_count := s64 (s64 filp.i_size - offset)
  if max_read_count < 0 then some ⟨-EINVAL, offset, [], [], 0⟩
  else
    let read_count := min (s64 len) max_read_count
    let n := u64 (read_count + 1)
    match copy_to_user ucap filp.private_data offset n with
    | none => none
    | some (left, out) =>
      if left ≠ 0 then
        some ⟨-EFAULT, offset, (List.range n).map (fun k => offset.toNat + k), out, left⟩
      else
        some ⟨read_count, s64 (offset + read_count),
          (List.range n).map (fun k => offset.toNat + k), out, left⟩

/-- What a call of `networkfs_file_write` leaves behind. -/
structure write_result where
  ret : Int
  offset : Int
  filp : file
  uncopied : Nat
deriving DecidableEq, Repr

/-- The function `networkfs_file_write(filp, buffer, len, offset)`; `buffer` holds the
bytes readable at the caller's pointer.  The result holds the value returned, `*offset`
afterwards, the file, and the value `copy_from_user` returned. -/
def networkfs_file_write (filp : file) (buffer : List Nat) (len : Nat) (offset : Int) :
    Option write_result :=
  let max_write_count := s64 ((NETWORKFS_API_ENTRY_MAX_FILE : Int) - offset)
  if max_write_count ≤ 0 then some ⟨-EDQUOT, offset, filp, 0⟩
  else
    let write_count := min (s64 len) max_write_count
    match copy_from_user filp.private_data offset buffer (u64 write_count) with
    | none => none
    | some (left, data) =>
      let write_count := s64 (write_count - s64 left)
      let offset := s64 (offset + write_count)
      some ⟨write_count, offset,
        { filp with private_data := data, i_size := max offset filp.i_size }, left⟩

/-- The function `networkfs_file_flush_impl`: the transport state, the file (with the
terminator stored) and the value returned. -/
def networkfs_file_flush_impl {σ : Type} (char_signed : Bool) (http : σ → http_request → σ × Int)
    (kmalloc : Option (Nat → Nat)) (st : σ) (filp : file) : Option (σ × file × Int) :=
  match filp.private_data with
  | none => none
  | some content =>
    if 0 ≤ filp.i_size ∧ filp.i_size.toNat < content.length then
      let content := content.set filp.i_size.toNat 0
      match networkfs_api_write char_signed http kmalloc st filp.i_ino content with
      | none => none
      | some (st1, code) => some (st1, { filp with private_data := some content }, s32 code)
    else none

/-! ## A remote that keeps what it is sent -/

/-- The value of a hexadecimal digit character. -/
def unhex (c : Nat) : Nat :=
  if 48 ≤ c ∧ c ≤ 57 then c - 48
  else if 97 ≤ c ∧ c ≤ 102 then c - 87
  else if 65 ≤ c ∧ c ≤ 70 then c - 55
  else 0

/-- Decoding of the percent escapes of a request argument. -/
def pct_decode : List Nat → List Nat
  | [] => []
  | [c] => [c]
  | [c, d] => [c, d]
  | c :: h :: l :: rest =>
    if c = 37 then (unhex h * 16 + unhex l) :: pct_decode rest
    else c :: pct_decode (h :: l :: rest)

/-- Modelled from the spec: the remote service behind the transport is not part of the
sources; this is a remote that stores what the `write` call sends it (the decoded
`content` argument, keyed by the `inode` argument) and returns it on `read`.  It also
keeps the requests it received. -/
structure remote where
  files : List (List Nat × List Nat)
  log : List http_request
deriving DecidableEq, Repr

/-- Modelled from the spec: the `write` method of the storing remote. -/
def remote_write (r : remote) (req : http_request) : remote × Int :=
  match req.args.lookup "inode", req.args.lookup "content" with
  | some ino, some data =>
    ({ files := (ino, pct_decode data) :: r.files, log := r.log ++ [req] }, 0)
  | _, _ => ({ r with log := r.log ++ [req] }, 1)

/-- Modelled from the spec: the `read` method of the storing remote; status 1 (object
not found) when nothing was stored for the inode. -/
def remote_read (r : remote) (req : http_request) : remote × Int × content :=
  match (req.args.lookup "inode").bind (fun ino => r.files.lookup ino) with
  | some data =>
    ({ r with log := r.log ++ [req] }, 0,
      ⟨data.length, data ++ List.replicate (NETWORKFS_API_ENTRY_MAX_FILE + 1 - data.length) 0⟩)
  | none =>
    ({ r with log := r.log ++ [req] }, 1, ⟨0, List.replicate (NETWORKFS_API_ENTRY_MAX_FILE + 1) 0⟩)

/-! ## Directory enumeration (`networkfs_iterate`) -/

/-- The arguments of one call of `dir_emit`: the name (its first `namlen` bytes), the
length, the inode number and the type. -/
structure dirent where
  name : List Nat
  namlen : Int
  ino : Nat
  type : Nat
deriving DecidableEq, Repr

/-- The cursor `struct dir_context`, together with the calls of `dir_emit` made on it. -/
structure dir_context where
  pos : Int
  emitted : List dirent
deriving DecidableEq, Repr

/-- The call `dir_emit(ctx, name, namlen, ino, type)`; its result is not used by the code. -/
def dir_emit (ctx : dir_context) (name : List Nat) (namlen : Int) (ino type : Nat) :
    dir_context :=
  { ctx with emitted := ctx.emitted ++ [⟨name.take namlen.toNat, namlen, ino, type⟩] }

/-- The statements `++record_counter; ++ctx->pos;`. -/
def count_and_advance (st : dir_context × Int) : dir_context × Int :=
  ({ st.1 with pos := s64 (st.1.pos + 1) }, s64 (st.2 + 1))

/-- The inner loop of `networkfs_iterate` over `struct entry *e`: `n` iterations are
left before `e` reaches `entries->entries + entries->entries_count`, and `e` points at
index `i`.  Reading beyond the array is a fault. -/
def iterate_entries (es : List entry) : Nat → Nat → dir_context × Int → Option (dir_context × Int)
  | 0, _, st => some st
  | n + 1, i, st =>
    match es[i]? with
    | none => none
    | some e =>
      iterate_entries es n (i + 1)
        (count_and_advance (dir_emit st.1 e.name (s32 (strlen e.name)) e.ino e.entry_type, st.2))

/-- The loop `while (true)` of `networkfs_iterate`; `list_call` is the call
`networkfs_api_list(token, ino)` (`none` for a null result).  The state is the cursor
and `record_counter`; the result is the value returned and the cursor. -/
def iterate_loop (list_call : Nat → Option entries) (i_ino parent_ino : Nat) :
    Nat → dir_context × Int → Option (Int × dir_context)
  | 0, _ => none
  | fuel + 1, st =>
    if st.1.pos = 0 then
      iterate_loop list_call i_ino parent_ino fuel
        (count_and_advance (dir_emit st.1 [46] 1 i_ino DT_DIR, st.2))
    else if st.1.pos = 1 then
      iterate_loop list_call i_ino parent_ino fuel
        (count_and_advance (dir_emit st.1 [46, 46] 2 parent_ino DT_DIR, st.2))
    else if st.1.pos = 2 then
      match list_call i_ino with
      | some entries =>
        let first := (st.1.pos - 2).toNat
        if first ≤ entries.entries_count then
          match iterate_entries entries.entries (entries.entries_count - first) first st with
          | none => none
          | some st1 => iterate_loop list_call i_ino parent_ino fuel (count_and_advance st1)
        else none
      | none => iterate_loop list_call i_ino parent_ino fuel (count_and_advance st)
    else some (s32 st.2, st.1)

/-- The function `networkfs_iterate(file, ctx)` on the directory with inode number
`i_ino` whose parent has inode number `parent_ino`.  `fuel` bounds the number of turns
of the outer loop; `none` when it is exhausted or on a fault. -/
def networkfs_iterate (list_call : Nat → Option entries) (i_ino parent_ino : Nat) (fuel : Nat)
    (ctx : dir_context) : Option (Int × dir_context) :=
  iterate_loop list_call i_ino parent_ino fuel (ctx, 0)

/-! ## Scenarios -/

/-- The flush-then-open cycle on the storing remote: `data` is written at offset 0 (the
caller's buffer holds exactly `data`), the session is flushed with
`networkfs_file_flush_impl`, and the inode is opened again.  Gives the remote and the
file after the second open. -/
def write_flush_reopen (char_signed : Bool) (kmalloc : Nat → Nat) (filp : file) (data : List Nat)
    (r : remote) : Option (remote × file) :=
  (networkfs_file_write filp data data.length 0).bind fun w =>
  (networkfs_file_flush_impl char_signed remote_write (some kmalloc) r w.filp).bind fun x =>
  (networkfs_file_open remote_read true x.1 x.2.1).map fun y => (y.1, y.2.1)

/-! ## Record sizes (LP64) -/

/-- Rounds `n` up to a multiple of the alignment `a`. -/
def align_up (n a : Nat) : Nat := (n + a - 1) / a * a

/-- The size of a C structure whose fields have the given `(size, alignment)` pairs:
each field starts at the next multiple of its alignment and the total is rounded up to
the largest alignment. -/
def struct_size (fields : List (Nat × Nat)) : Nat :=
  align_up (fields.foldl (fun off f => align_up off f.2 + f.1) 0)
    (fields.foldl (fun a f => max a f.2) 1)

/-- The value of `sizeof(ino_t)`. -/
def sizeof_ino_t : Nat := 8

/-- The value of `sizeof(struct entry)`: a byte, an `ino_t` and 256 bytes of name. -/
def sizeof_entry : Nat := struct_size [(1, 1), (8, 8), (NETWORKFS_API_ENTRY_MAX_NAME_LEN, 1)]

/-- The value of `sizeof(struct entries)`: a `size_t` and 16 entries. -/
def sizeof_entries : Nat := struct_size [(8, 8), (16 * sizeof_entry, 8)]

/-- The value of `sizeof(struct entry_info)`: a byte and an `ino_t`. -/
def sizeof_entry_info : Nat := struct_size [(1, 1), (8, 8)]

/-! ## The other calls of `networkfs-api.c` -/

/-- The record `struct entry_info`. -/
structure entry_info where
  entry_type : Nat
  ino : Nat
deriving DecidableEq, Repr

/-- The bytes of a string literal of the source. -/
def c_lit (s : String) : List Nat := s.toList.map Char.toNat

/-- The statements `char processed_name[NETWORKFS_API_ENTRY_MAX_NAME_LEN * 3 + 1];
networkfs_api_process_string(processed_name, name);` on a local array with initial content
`stack`: the string left in the array, or `none` when a store falls outside the array. -/
def process_name (char_signed : Bool) (stack : Nat → Nat) (name : List Nat) : Option (List Nat) :=
  let cap := NETWORKFS_API_ENTRY_MAX_NAME_LEN * 3 + 1
  if (process_string_stores char_signed name).all (fun s => decide (s.1 < cap)) then
    some (c_str_at (networkfs_api_process_string char_signed stack name) cap 0)
  else none

/-- The function `networkfs_api_list`; `kmalloc` tells whether the allocation of the
response succeeds.  The result is the record returned (`none` for a null pointer). -/
def networkfs_api_list {σ : Type} (http : σ → http_request → σ × Int × entries)
    (kmalloc : Bool) (st : σ) (i_ino : Nat) : Option (σ × Option entries) :=
  (sprintf_lu ino_str_size i_ino).bind fun i_ino_str =>
    if kmalloc = false then some (st, none)
    else
      let r := http st ⟨"list", sizeof_entries, [("inode", i_ino_str)]⟩
      some (r.1, if r.2.1 = 0 then some r.2.2 else none)

/-- The function `networkfs_api_lookup`.  The response buffer has the size of
`struct entries` and is returned as a `struct entry_info`. -/
def networkfs_api_lookup {σ : Type} (char_signed : Bool)
    (http : σ → http_request → σ × Int × entry_info) (kmalloc : Bool) (stack : Nat → Nat)
    (st : σ) (parent_ino : Nat) (name : List Nat) : Option (σ × Option entry_info) :=
  (sprintf_lu ino_str_size parent_ino).bind fun parent_ino_str =>
    (process_name char_signed stack name).bind fun processed_name =>
      if kmalloc = false then some (st, none)
      else
        let r := http st ⟨"lookup", sizeof_entries,
          [("parent", parent_ino_str), ("name", processed_name)]⟩
        some (r.1, if r.2.1 = 0 then some r.2.2 else none)

/-- The function `networkfs_api_create`; the transport returns the status and the value
it leaves in `*created_ino`.  The result is the status and that value. -/
def networkfs_api_create {σ : Type} (char_signed : Bool)
    (http : σ → http_request → σ × Int × Nat) (stack : Nat → Nat)
    (st : σ) (parent_ino : Nat) (name : List Nat) (type : Nat) : Option (σ × Int × Nat) :=
  (sprintf_lu ino_str_size parent_ino).bind fun parent_ino_str =>
    (process_name char_signed stack name).bind fun processed_name =>
      some (http st ⟨"create", sizeof_ino_t,
        [("parent", parent_ino_str), ("name", processed_name),
         ("type", if type = DT_DIR then c_lit "directory" else c_lit "file")]⟩)

/-- The function `networkfs_api_remove`. -/
def networkfs_api_remove {σ : Type} (char_signed : Bool)
    (http : σ → http_request → σ × Int) (stack : Nat → Nat)
    (st : σ) (parent_ino : Nat) (name : List Nat) (type : Nat) : Option (σ × Int) :=
  (sprintf_lu ino_str_size parent_ino).bind fun parent_ino_str =>
    (process_name char_signed stack name).bind fun processed_name =>
      some (http st ⟨if type = DT_DIR then "rmdir" else "unlink", 0,
        [("parent", parent_ino_str), ("name", processed_name)]⟩)

/-- The function `networkfs_api_link`. -/
def networkfs_api_link {σ : Type} (char_signed : Bool)
    (http : σ → http_request → σ × Int) (stack : Nat → Nat)
    (st : σ) (source_ino parent_ino : Nat) (name : List Nat) : Option (σ × Int) :=
  (sprintf_lu ino_str_size parent_ino).bind fun parent_ino_str =>
    (sprintf_lu ino_str_size source_ino).bind fun source_ino_str =>
      (process_name char_signed stack name).bind fun processed_name =>
        some (http st ⟨"link", 0,
          [("source", source_ino_str), ("parent", parent_ino_str), ("name", processed_name)]⟩)

/-- A transport that records each request and answers with a fixed status and record. -/
def recording_http {ρ : Type} (code : Int) (resp : ρ) (log : List http_request)
    (req : http_request) : List http_request × Int × ρ :=
  (log ++ [req], code, resp)

/-- A transport without response body that records each request and answers with a
fixed status. -/
def recording_http_status (code : Int) (log : List http_request) (req : http_request) :
    List http_request × Int :=
  (log ++ [req], code)

/-! ## Inode operations (`networkfs-impl.c`) -/

/-- File type bits `S_IFDIR`. -/
def S_IFDIR : Nat := 16384

/-- File type bits `S_IFREG`. -/
def S_IFREG : Nat := 32768

/-- Permission bits `S_IRWXUGO`. -/
def S_IRWXUGO : Nat := 511

/-- The macro `NETWORKFS_DTOS`. -/
def NETWORKFS_DTOS (type : Nat) : Nat := if type = DT_DIR then S_IFDIR else S_IFREG

/-- The macro `NETWORKFS_STOD`. -/
def NETWORKFS_STOD (type : Nat) : Nat := if type = S_IFDIR then DT_DIR else DT_REG

/-- The fields of a local `struct inode` that `networkfs_get_inode` sets; `dir_ops`
tells whether `i_fop` is `networkfs_dir_ops` (otherwise `networkfs_file_ops`). -/
structure inode where
  i_ino : Nat
  i_mode : Nat
  dir_ops : Bool
deriving DecidableEq, Repr

/-- The function `networkfs_get_inode`; `new_inode` tells whether `new_inode(sb)` gives
an inode (otherwise the result is null). -/
def networkfs_get_inode (new_inode : Bool) (mode : Nat) (i_ino : Nat) : Option inode :=
  if new_inode then some ⟨i_ino, mode ||| S_IRWXUGO, decide (mode = S_IFDIR)⟩ else none

/-- The local tree under the parent directory: the names bound by `d_add`, most recent
first, each with its inode (`none` for a null inode). -/
abbrev dcache := List (List Nat × Option inode)

/-- The call `d_add(child, inode)` for the dentry named `name`. -/
def d_add (tree : dcache) (name : List Nat) (i : Option inode) : dcache :=
  (c_str name, i) :: tree

/-- The function `networkfs_lookup`.  The value is 0 for the null pointer and -1 for
`ERR_PTR(-1)`; the result also holds the transport state and the local tree. -/
def networkfs_lookup {σ : Type} (char_signed : Bool)
    (http : σ → http_request → σ × Int × entry_info) (kmalloc new_inode : Bool)
    (stack : Nat → Nat) (st : σ) (tree : dcache) (parent_ino : Nat) (name : List Nat) :
    Option (σ × Int × dcache) :=
  if NETWORKFS_API_ENTRY_MAX_NAME_LEN ≤ strlen name then some (st, -1, tree)
  else
    (networkfs_api_lookup char_signed http kmalloc stack st parent_ino name).map fun r =>
      (r.1, 0,
        match r.2 with
        | some info =>
          d_add tree name (networkfs_get_inode new_inode (NETWORKFS_DTOS info.entry_type) info.ino)
        | none => tree)

/-- The function `networkfs_create_impl`: the transport state, the value returned and
the local tree. -/
def networkfs_create_impl {σ : Type} (char_signed : Bool)
    (http : σ → http_request → σ × Int × Nat) (new_inode : Bool) (stack : Nat → Nat)
    (st : σ) (tree : dcache) (parent_ino : Nat) (name : List Nat) (type : Nat) :
    Option (σ × Int × dcache) :=
  (networkfs_api_create char_signed http stack st parent_ino name (NETWORKFS_STOD type)).map
    fun r =>
      (r.1, s32 r.2.1,
        if r.2.1 = 0 then d_add tree name (networkfs_get_inode new_inode type r.2.2) else tree)

/-- The function `networkfs_create`. -/
def networkfs_create {σ : Type} (char_signed : Bool)
    (http : σ → http_request → σ × Int × Nat) (new_inode : Bool) (stack : Nat → Nat)
    (st : σ) (tree : dcache) (parent_ino : Nat) (name : List Nat) : Option (σ × Int × dcache) :=
  networkfs_create_impl char_signed http new_inode stack st tree parent_ino name S_IFREG

/-- The function `networkfs_mkdir`. -/
def networkfs_mkdir {σ : Type} (char_signed : Bool)
    (http : σ → http_request → σ × Int × Nat) (new_inode : Bool) (stack : Nat → Nat)
    (st : σ) (tree : dcache) (parent_ino : Nat) (name : List Nat) : Option (σ × Int × dcache) :=
  networkfs_create_impl char_signed http new_inode stack st tree parent_ino name S_IFDIR

/-- The function `networkfs_remove_impl`: the transport state, the value returned and
the local tree, which the function has no statement to change. -/
def networkfs_remove_impl {σ : Type} (char_signed : Bool)
    (http : σ → http_request → σ × Int) (stack : Nat → Nat)
    (st : σ) (tree : dcache) (parent_ino : Nat) (name : List Nat) (type : Nat) :
    Option (σ × Int × dcache) :=
  (networkfs_api_remove char_signed http stack st parent_ino name (NETWORKFS_STOD type)).map
    fun r => (r.1, s32 r.2, tree)

/-- The function `networkfs_unlink`. -/
def networkfs_unlink {σ : Type} (char_signed : Bool)
    (http : σ → http_request → σ × Int) (stack : Nat → Nat)
    (st : σ) (tree : dcache) (parent_ino : Nat) (name : List Nat) : Option (σ × Int × dcache) :=
  networkfs_remove_impl char_signed http stack st tree parent_ino name S_IFREG

/-- The function `networkfs_rmdir`. -/
def networkfs_rmdir {σ : Type} (char_signed : Bool)
    (http : σ → http_request → σ × Int) (stack : Nat → Nat)
    (st : σ) (tree : dcache) (parent_ino : Nat) (name : List Nat) : Option (σ × Int × dcache) :=
  networkfs_remove_impl char_signed http stack st tree parent_ino name S_IFDIR

/-! ## Sequences of operations on one session -/

/-- One operation on an open file, with what its caller supplies. -/
inductive session_op where
  | read (ucap len : Nat) (offset : Int)
  | write (buffer : List Nat) (len : Nat) (offset : Int)
  | flush (kmalloc : Option (Nat → Nat))

/-- The offset of a read or write is a non-negative `loff_t` and its length a `size_t`. -/
def session_op.in_range : session_op → Prop
  | .read _ len offset => 0 ≤ offset ∧ offset < 9223372036854775808 ∧ len < 18446744073709551616
  | .write _ len offset => 0 ≤ offset ∧ offset < 9223372036854775808 ∧ len < 18446744073709551616
  | .flush _ => True

instance (op : session_op) : Decidable op.in_range := by
  cases op <;> unfold session_op.in_range <;> infer_instance

/-- One operation on the session: `networkfs_file_read`, `networkfs_file_write` or
`networkfs_file_flush_impl`; the state is the transport state and the file. -/
def session_step {σ : Type} (char_signed : Bool) (http : σ → http_request → σ × Int) :
    session_op → σ × file → Option (σ × file)
  | .read ucap len offset, s => (networkfs_file_read s.2 ucap len offset).map fun _ => s
  | .write buffer len offset, s =>
    (networkfs_file_write s.2 buffer len offset).map fun w => (s.1, w.filp)
  | .flush kmalloc, s =>
    (networkfs_file_flush_impl char_signed http kmalloc s.1 s.2).map fun x => (x.1, x.2.1)

/-- A finite sequence of operations on the session, first to last. -/
def session_run {σ : Type} (char_signed : Bool) (http : σ → http_request → σ × Int) :
    List session_op → σ × file → Option (σ × file)
  | [], s => some s
  | op :: ops, s => (session_step char_signed http op s).bind (session_run char_signed http ops)

/-- The local round trip: the block `d` is written at `offset` (the caller's buffer holds
exactly `d`), then `d.length` bytes are read at the same offset into a buffer with `ucap`
writable bytes.  Neither function takes the transport.  Gives the result of the read. -/
def write_then_read (filp : file) (d : List Nat) (offset : Int) (ucap : Nat) :
    Option read_result :=
  (networkfs_file_write filp d d.length offset).bind fun w =>
    networkfs_file_read w.filp ucap d.length offset

/-! ## Lemmas on formatting and on stores -/

theorem hex_digit_pos (d : Nat) : hex_digit d ≠ 0 := by
  unfold hex_digit
  split <;> omega

theorem fmt_02x_two_digits (v : Nat) (hv : v < 256) :
    fmt_02x v = [hex_digit (v / 16), hex_digit (v % 16)] := by
  unfold fmt_02x
  by_cases h : v / 16 = 0
  · simp [hex_digits_core, h, hex_digit]
  · have h2 : v / 16 / 16 = 0 := by omega
    have h3 : v / 16 % 16 = v / 16 := by omega
    simp [hex_digits_core, h, h2, h3]

theorem u32_char_to_int (char_signed : Bool) (b : Nat) (hb : b < 256)
    (h7 : char_signed = true → b < 128) : u32 (char_to_int char_signed b) = b := by
  unfold u32 char_to_int
  cases char_signed with
  | false => simp; omega
  | true =>
    have := h7 rfl
    have h : ¬ (128 ≤ b) := by omega
    simp [h]; omega

theorem sprintf_pct_02x_two_digits (char_signed : Bool) (b : Nat) (hb : b < 256)
    (h7 : char_signed = true → b < 128) :
    sprintf_pct_02x char_signed b = [37, hex_digit (b / 16), hex_digit (b % 16), 0] := by
  unfold sprintf_pct_02x
  rw [u32_char_to_int char_signed b hb h7, fmt_02x_two_digits b hb]
  rfl

theorem apply_stores_append (m : Nat → Nat) (l1 l2 : List (Nat × Nat)) :
    apply_stores m (l1 ++ l2) = apply_stores (apply_stores m l1) l2 := by
  induction l1 generalizing m with
  | nil => rfl
  | cons s ss ih => simp [apply_stores, ih]

theorem apply_stores_frame (l : List (Nat × Nat)) (m : Nat → Nat) (j : Nat)
    (h : ∀ s ∈ l, j < s.1) : apply_stores m l j = m j := by
  induction l generalizing m with
  | nil => rfl
  | cons s ss ih =>
    have hs : j < s.1 := h s (List.mem_cons_self _ _)
    have hne : j ≠ s.1 := by omega
    simp only [apply_stores]
    rw [ih _ (fun t ht => h t (List.mem_cons_of_mem _ ht))]
    simp [store, hne]

theorem stores_at_index (bs : List Nat) (i : Nat) : ∀ s ∈ stores_at i bs, i ≤ s.1 := by
  induction bs generalizing i with
  | nil => simp [stores_at]
  | cons b bs ih =>
    intro s hs
    simp only [stores_at, List.mem_cons] at hs
    rcases hs with rfl | hs
    · exact Nat.le_refl _
    · exact Nat.le_trans (Nat.le_succ i) (ih (i + 1) s hs)

theorem process_string_loop_index (char_signed : Bool) (src : List Nat) (i : Nat) :
    ∀ s ∈ process_string_loop char_signed src i, i * 3 ≤ s.1 := by
  induction src generalizing i with
  | nil => simp [process_string_loop]
  | cons c rest ih =>
    intro s hs
    simp only [process_string_loop, List.mem_append] at hs
    rcases hs with hs | hs
    · exact stores_at_index _ _ s hs
    · have := ih (i + 1) s hs
      omega

/-- With two-digit escapes the loop followed by the final store leaves, from index `3 i`
on, exactly the escapes of the source and a terminator. -/
theorem c_str_at_process_string_loop (char_signed : Bool) (src : List Nat)
    (hb : ∀ b ∈ src, b < 256) (h7 : char_signed = true → ∀ b ∈ src, b < 128) :
    ∀ (i cap : Nat) (m : Nat → Nat), 3 * src.length < cap →
      c_str_at (apply_stores m
        (process_string_loop char_signed src i ++ [((i + src.length) * 3, 0)])) cap (i * 3)
        = spec_encode src := by
  induction src with
  | nil =>
    intro i cap m hcap
    obtain ⟨c, rfl⟩ : ∃ c, cap = c + 1 := ⟨cap - 1, by simp at hcap; omega⟩
    simp [process_string_loop, apply_stores, store, c_str_at, spec_encode]
  | cons b rest ih =>
    intro i cap m hcap
    have hb0 : b < 256 := hb b (List.mem_cons_self _ _)
    have h70 : char_signed = true → b < 128 := fun h => h7 h b (List.mem_cons_self _ _)
    have hbr : ∀ x ∈ rest, x < 256 := fun x hx => hb x (List.mem_cons_of_mem _ hx)
    have h7r : char_signed = true → ∀ x ∈ rest, x < 128 :=
      fun h x hx => h7 h x (List.mem_cons_of_mem _ hx)
    simp only [List.length_cons] at hcap
    obtain ⟨c, rfl⟩ : ∃ c, cap = c + 3 := ⟨cap - 3, by omega⟩
    have hlen : (i + (b :: rest).length) * 3 = (i + 1 + rest.length) * 3 := by
      simp only [List.length_cons]; ring
    simp only [process_string_loop, List.append_assoc]
    rw [hlen, apply_stores_append, sprintf_pct_02x_two_digits char_signed b hb0 h70]
    have ihr := ih hbr h7r (i + 1) c
      (apply_stores m (stores_at (i * 3) [37, hex_digit (b / 16), hex_digit (b % 16), 0]))
      (by omega)
    have hframe : ∀ j, j < (i + 1) * 3 →
        apply_stores (apply_stores m (stores_at (i * 3) [37, hex_digit (b / 16), hex_digit (b % 16), 0]))
          (process_string_loop char_signed rest (i + 1) ++ [((i + 1 + rest.length) * 3, 0)]) j
        = apply_stores m (stores_at (i * 3) [37, hex_digit (b / 16), hex_digit (b % 16), 0]) j := by
      intro j hj
      apply apply_stores_frame
      intro s hs
      simp only [List.mem_append, List.mem_singleton] at hs
      rcases hs with hs | rfl
      · have := process_string_loop_index char_signed rest (i + 1) s hs
        omega
      · simp only; omega
    have e0 : apply_stores m (stores_at (i * 3) [37, hex_digit (b / 16), hex_digit (b % 16), 0]) (i * 3) = 37 := by
      simp only [stores_at, apply_stores, store]
      split_ifs <;> first | rfl | omega
    have e1 : apply_stores m (stores_at (i * 3) [37, hex_digit (b / 16), hex_digit (b % 16), 0]) (i * 3 + 1)
        = hex_digit (b / 16) := by
      simp only [stores_at, apply_stores, store]
      split_ifs <;> first | rfl | omega
    have e2 : apply_stores m (stores_at (i * 3) [37, hex_digit (b / 16), hex_digit (b % 16), 0]) (i * 3 + 2)
        = hex_digit (b % 16) := by
      simp only [stores_at, apply_stores, store]
      split_ifs <;> first | rfl | omega
    have h1 := hex_digit_pos (b / 16)
    have h2 := hex_digit_pos (b % 16)
    have hi3 : i * 3 + 1 + 1 + 1 = (i + 1) * 3 := by ring
    simp only [c_str_at, spec_encode]
    rw [hframe (i * 3) (by omega), hframe (i * 3 + 1) (by omega),
      hframe (i * 3 + 1 + 1) (by omega), e0, e1, e2]
    simp only [h1, h2, if_false, hi3]
    rw [ihr]
    simp

theorem take_strlen (src : List Nat) : src.take (strlen src) = c_str src := by
  induction src with
  | nil => rfl
  | cons b bs ih =>
    unfold strlen c_str at *
    by_cases h : b = 0
    · simp [List.takeWhile, h]
    · simpa [List.takeWhile, h] using ih

theorem strlen_eq_length_c_str (src : List Nat) : strlen src = (c_str src).length := rfl

theorem c_str_append_nul (C rest : List Nat) (hnz : ∀ b ∈ C, b ≠ 0) :
    c_str (C ++ 0 :: rest) = C := by
  induction C with
  | nil => simp [c_str, List.takeWhile]
  | cons b bs ih =>
    have h : b ≠ 0 := hnz b (List.mem_cons_self _ _)
    have := ih (fun x hx => hnz x (List.mem_cons_of_mem _ hx))
    unfold c_str at *
    simpa [List.takeWhile, h] using this

theorem c_str_nul_free (C : List Nat) (hnz : ∀ b ∈ C, b ≠ 0) : c_str C = C := by
  induction C with
  | nil => rfl
  | cons b bs ih =>
    have h : b ≠ 0 := hnz b (List.mem_cons_self _ _)
    have := ih (fun x hx => hnz x (List.mem_cons_of_mem _ hx))
    unfold c_str at *
    simpa [List.takeWhile, h] using this

theorem process_string_stores_eq (char_signed : Bool) (src : List Nat) :
    process_string_stores char_signed src
      = process_string_loop char_signed (c_str src) 0 ++ [((0 + (c_str src).length) * 3, 0)] := by
  unfold process_string_stores
  simp only [take_strlen, Nat.zero_add]
  rfl

/-- With two-digit escapes (plain `char` unsigned, or all bytes below 0x80) the string
left in `dest` is the spec's encoding of the source string. -/
theorem c_str_at_networkfs_api_process_string (char_signed : Bool) (dest : Nat → Nat)
    (src : List Nat) (cap : Nat) (hb : ∀ b ∈ c_str src, b < 256)
    (h7 : char_signed = true → ∀ b ∈ c_str src, b < 128) (hcap : 3 * (c_str src).length < cap) :
    c_str_at (networkfs_api_process_string char_signed dest src) cap 0 = spec_encode (c_str src) := by
  unfold networkfs_api_process_string
  rw [process_string_stores_eq]
  have := c_str_at_process_string_loop char_signed (c_str src) hb h7 0 cap dest hcap
  simpa using this

theorem stores_at_index_lt (bs : List Nat) (i : Nat) :
    ∀ s ∈ stores_at i bs, s.1 < i + bs.length := by
  induction bs generalizing i with
  | nil => simp [stores_at]
  | cons b bs ih =>
    intro s hs
    simp only [stores_at, List.mem_cons] at hs
    rcases hs with rfl | hs
    · simp
    · have := ih (i + 1) s hs
      simp only [List.length_cons]
      omega

/-- With two-digit escapes no store of the encoder goes beyond index `3 * strlen(src)`. -/
theorem process_string_stores_bound (char_signed : Bool) (src : List Nat)
    (hb : ∀ b ∈ c_str src, b < 256) (h7 : char_signed = true → ∀ b ∈ c_str src, b < 128) :
    ∀ s ∈ process_string_stores char_signed src, s.1 ≤ 3 * (c_str src).length := by
  rw [process_string_stores_eq]
  have key : ∀ (l : List Nat), (∀ b ∈ l, b < 256) → (char_signed = true → ∀ b ∈ l, b < 128) →
      ∀ i, ∀ s ∈ process_string_loop char_signed l i, s.1 ≤ (i + l.length) * 3 := by
    intro l
    induction l with
    | nil => intro _ _ i s hs; simp [process_string_loop] at hs
    | cons b rest ih =>
      intro hb h7 i s hs
      have hb0 : b < 256 := hb b (List.mem_cons_self _ _)
      have h70 : char_signed = true → b < 128 := fun h => h7 h b (List.mem_cons_self _ _)
      simp only [process_string_loop, List.mem_append] at hs
      simp only [List.length_cons]
      rcases hs with hs | hs
      · rw [sprintf_pct_02x_two_digits char_signed b hb0 h70] at hs
        have := stores_at_index_lt _ _ s hs
        simp only [List.length_cons, List.length_nil] at this
        omega
      · have := ih (fun x hx => hb x (List.mem_cons_of_mem _ hx))
          (fun h x hx => h7 h x (List.mem_cons_of_mem _ hx)) (i + 1) s hs
        omega
  intro s hs
  simp only [List.mem_append, List.mem_singleton] at hs
  rcases hs with hs | rfl
  · have := key (c_str src) hb h7 0 s hs
    omega
  · simp only; omega

/-! ## The wire codec: claims -/

/-- C1 (code defect).  Where plain `char` is signed, the one-byte string 0x80 is not
encoded as a percent sign and the two hexadecimal digits `8`, `0` of its value: the
promoted argument is negative, `sprintf` prints the eight digits `ffffff80` and stores
ten bytes at indices 0 to 9, and after the final store of the terminator at index 3 the
destination holds `%ff`. -/
theorem process_string_signed_high_byte (dest : Nat → Nat) :
    process_string_stores true [128]
      = [(0, 37), (1, 102), (2, 102), (3, 102), (4, 102), (5, 102), (6, 102), (7, 56), (8, 48),
          (9, 0), (3, 0)]
    ∧ networkfs_api_process_string true dest [128] 0 = 37
    ∧ networkfs_api_process_string true dest [128] 1 = 102
    ∧ networkfs_api_process_string true dest [128] 2 = 102
    ∧ networkfs_api_process_string true dest [128] 3 = 0
    ∧ hex_digit (128 / 16) = 56 ∧ hex_digit (128 % 16) = 48 := by
  refine ⟨by decide, rfl, rfl, rfl, rfl, by decide, by decide⟩

/-- C2 (code defect).  Where plain `char` is signed, the distinct one-byte names 0x80 and
0x81 are encoded to the same string `%ff`. -/
theorem process_string_signed_collision (dest : Nat → Nat) :
    [128] ≠ [129]
    ∧ c_str_at (networkfs_api_process_string true dest [128]) (NETWORKFS_API_ENTRY_MAX_NAME_LEN * 3 + 1) 0
      = [37, 102, 102]
    ∧ c_str_at (networkfs_api_process_string true dest [129]) (NETWORKFS_API_ENTRY_MAX_NAME_LEN * 3 + 1) 0
      = [37, 102, 102] := by
  refine ⟨by decide, rfl, rfl⟩

/-! ## Flush and reopen -/

theorem unhex_hex_digit (d : Nat) (hd : d < 16) : unhex (hex_digit d) = d := by
  unfold unhex hex_digit
  split_ifs <;> omega

theorem pct_decode_spec_encode (C : List Nat) (hb : ∀ b ∈ C, b < 256) :
    pct_decode (spec_encode C) = C := by
  induction C with
  | nil => rfl
  | cons b bs ih =>
    have hb0 : b < 256 := hb b (List.mem_cons_self _ _)
    have h1 : unhex (hex_digit (b / 16)) = b / 16 := unhex_hex_digit _ (by omega)
    have h2 : unhex (hex_digit (b % 16)) = b % 16 := unhex_hex_digit _ (by omega)
    simp only [spec_encode, pct_decode, if_true, h1, h2]
    rw [ih (fun x hx => hb x (List.mem_cons_of_mem _ hx))]
    congr 1
    omega

theorem dec_digits_core_length (fuel : Nat) :
    ∀ (k v : Nat) (acc : List Nat), 1 ≤ k → v < 10 ^ k →
      (dec_digits_core fuel v acc).length ≤ acc.length + k := by
  induction fuel with
  | zero => intro k v acc _ _; simp [dec_digits_core]
  | succ fuel ih =>
    intro k v acc hk hv
    unfold dec_digits_core
    split
    · simp only [List.length_cons]; omega
    · rename_i hne
      obtain ⟨j, rfl⟩ : ∃ j, k = j + 1 := ⟨k - 1, by omega⟩
      have hj : 1 ≤ j := by
        rcases Nat.eq_zero_or_pos j with rfl | h
        · simp at hv; omega
        · exact h
      have hv2 : v / 10 < 10 ^ j := by
        rw [Nat.pow_succ] at hv
        omega
      have := ih j (v / 10) ((48 + v % 10) :: acc) hj hv2
      simp only [List.length_cons] at this
      omega

theorem sprintf_lu_fits (ino : Nat) (h : ino < 100000000) :
    sprintf_lu ino_str_size ino = some (fmt_lu ino) := by
  have := dec_digits_core_length 20 8 ino [] (by omega) (by norm_num; exact h)
  unfold sprintf_lu ino_str_size
  unfold fmt_lu at *
  simp only [List.length_nil] at this
  rw [if_pos (by omega)]

/-! ## Bounded reads and writes of the content buffer -/

theorem s64_of_range (x : Int) (h1 : -9223372036854775808 ≤ x) (h2 : x < 9223372036854775808) :
    s64 x = x := by
  unfold s64; omega

theorem u64_of_range (x : Int) (h1 : 0 ≤ x) (h2 : x < 18446744073709551616) :
    (u64 x : Int) = x := by
  unfold u64; omega

theorem copy_from_user_full (buf ubuf : List Nat) (o : Int) (w : Nat) (ho : 0 ≤ o)
    (hin : o.toNat + w ≤ buf.length) (hw : w ≤ INT_MAX) (hu : w ≤ ubuf.length) :
    copy_from_user (some buf) o ubuf w
      = some (0, some (buf.take o.toNat ++ ubuf.take w ++ buf.drop (o.toNat + w))) := by
  unfold copy_from_user
  by_cases h0 : w = 0
  · subst h0
    simp
  · have h1 : ¬ (INT_MAX < w) := by omega
    have h2 : min w ubuf.length = w := by omega
    simp [h0, h1, h2, ho, hin]

/-- A write inside the first 512 bytes whose source is readable in full. -/
theorem networkfs_file_write_full (filp : file) (buf ubuf : List Nat) (n : Nat) (o : Int)
    (hbuf : filp.private_data = some buf) (hlen : buf.length = 513)
    (ho : 0 ≤ o) (ho2 : o < 512) (hn : n < 9223372036854775808)
    (hu : min n (512 - o.toNat) ≤ ubuf.length) :
    networkfs_file_write filp ubuf n o
      = some ⟨(min n (512 - o.toNat) : Nat), o + (min n (512 - o.toNat) : Nat),
          { filp with
            private_data := some (buf.take o.toNat ++ ubuf.take (min n (512 - o.toNat))
              ++ buf.drop (o.toNat + min n (512 - o.toNat))),
            i_size := max (o + (min n (512 - o.toNat) : Nat)) filp.i_size }, 0⟩ := by
  have h1 : s64 ((NETWORKFS_API_ENTRY_MAX_FILE : Int) - o) = 512 - o := by
    unfold NETWORKFS_API_ENTRY_MAX_FILE; exact s64_of_range _ (by omega) (by omega)
  have h2 : s64 (n : Int) = n := s64_of_range _ (by omega) (by omega)
  have h3 : min (n : Int) (512 - o) = ((min n (512 - o.toNat) : Nat) : Int) := by omega
  have h4 : u64 ((min n (512 - o.toNat) : Nat) : Int) = min n (512 - o.toNat) := by
    unfold u64; omega
  have h5 := copy_from_user_full buf ubuf o (min n (512 - o.toNat)) ho (by omega)
    (by unfold INT_MAX; omega) hu
  have h6 : s64 (((min n (512 - o.toNat) : Nat) : Int) - s64 ((0 : Nat) : Int))
      = ((min n (512 - o.toNat) : Nat) : Int) := by
    unfold s64; omega
  have h7 : s64 (o + ((min n (512 - o.toNat) : Nat) : Int))
      = o + ((min n (512 - o.toNat) : Nat) : Int) := by
    unfold s64; omega
  have h8 : ¬ (512 - o ≤ 0) := by omega
  unfold networkfs_file_write
  simp only [h1, h2, h3, h4, hbuf, h5, h6, h7, h8, if_false]

/-- A write inside the first 512 bytes whose copy from the caller is not complete:
`copy_from_user` reports a positive number of bytes not copied. -/
theorem networkfs_file_write_short (filp : file) (buf ubuf : List Nat) (n : Nat) (o : Int)
    (hbuf : filp.private_data = some buf) (hlen : buf.length = 513)
    (ho : 0 ≤ o) (ho2 : o < 512) (hn : n < 18446744073709551616)
    (hshort : ¬ (n < 9223372036854775808 ∧ min n (512 - o.toNat) ≤ ubuf.length)) :
    ∃ r, networkfs_file_write filp ubuf n o = some r ∧ r.uncopied ≠ 0 := by
  have h1 : s64 ((NETWORKFS_API_ENTRY_MAX_FILE : Int) - o) = 512 - o := by
    unfold NETWORKFS_API_ENTRY_MAX_FILE; exact s64_of_range _ (by omega) (by omega)
  have h8 : ¬ (512 - o ≤ 0) := by omega
  by_cases hbig : n < 9223372036854775808
  · have hw : ¬ (min n (512 - o.toNat) ≤ ubuf.length) := fun h => hshort ⟨hbig, h⟩
    have h2 : s64 (n : Int) = n := s64_of_range _ (by omega) (by omega)
    have h3 : min (n : Int) (512 - o) = ((min n (512 - o.toNat) : Nat) : Int) := by omega
    have h4 : u64 ((min n (512 - o.toNat) : Nat) : Int) = min n (512 - o.toNat) := by
      unfold u64; omega
    have c1 : ¬ (min n (512 - o.toNat) = 0) := by omega
    have c2 : ¬ (INT_MAX < min n (512 - o.toNat)) := by unfold INT_MAX; omega
    have c3 : 0 ≤ o ∧ o.toNat + min n (512 - o.toNat) ≤ buf.length := ⟨ho, by omega⟩
    unfold networkfs_file_write copy_from_user
    simp only [h1, h2, h3, h4, hbuf, h8, c1, c2, c3, if_false, if_true, and_self]
    refine ⟨_, rfl, ?_⟩
    simp only
    omega
  · have h2 : s64 (n : Int) = n - 18446744073709551616 := by unfold s64; omega
    have h3 : min ((n : Int) - 18446744073709551616) (512 - o) = (n : Int) - 18446744073709551616 := by
      omega
    have h4 : u64 ((n : Int) - 18446744073709551616) = n := by unfold u64; omega
    have c1 : ¬ (n = 0) := by omega
    have c2 : INT_MAX < n := by unfold INT_MAX; omega
    unfold networkfs_file_write copy_from_user
    simp only [h1, h2, h3, h4, hbuf, h8, c1, c2, if_false, if_true]
    exact ⟨_, rfl, c1⟩

/-- C6.  A write at an offset `0 ≤ o < 512` into a session that holds the 513-byte
content buffer returns; when `copy_from_user` reports no byte left uncopied (the user
copy succeeds in full), with `w = min(n, 512 - o)`: the value returned is `w`, the
offset advances by `w`, the size becomes `max(s, o + w)`, and the buffer is the old one
with exactly the first `w` bytes of the input at the indices `o .. o + w - 1`; since
`o + w ≤ 512`, every index from 512 on keeps its byte. -/
theorem networkfs_file_write_within_quota (filp : file) (buf ubuf : List Nat) (n : Nat) (o : Int)
    (hbuf : filp.private_data = some buf) (hlen : buf.length = NETWORKFS_API_ENTRY_MAX_FILE + 1)
    (ho : 0 ≤ o) (ho2 : o < 512) (hn : n < 18446744073709551616) :
    ∃ r, networkfs_file_write filp ubuf n o = some r ∧
      (r.uncopied = 0 →
        r.ret = min (n : Int) (512 - o) ∧
        r.offset = o + min (n : Int) (512 - o) ∧
        r.filp.i_size = max filp.i_size (o + min (n : Int) (512 - o)) ∧
        o.toNat + min n (512 - o.toNat) ≤ 512 ∧
        (ubuf.take (min n (512 - o.toNat))).length = min n (512 - o.toNat) ∧
        ∃ new, r.filp.private_data = some new ∧
          new = buf.take o.toNat ++ ubuf.take (min n (512 - o.toNat))
            ++ buf.drop (o.toNat + min n (512 - o.toNat)) ∧
          new.length = NETWORKFS_API_ENTRY_MAX_FILE + 1 ∧
          ∀ j, 512 ≤ j → new[j]? = buf[j]?) := by
  have hlen2 : buf.length = 513 := hlen
  by_cases hfull : n < 9223372036854775808 ∧ min n (512 - o.toNat) ≤ ubuf.length
  · refine ⟨_, networkfs_file_write_full filp buf ubuf n o hbuf hlen2 ho ho2 hfull.1 hfull.2, ?_⟩
    intro _
    have hw : (ubuf.take (min n (512 - o.toNat))).length = min n (512 - o.toNat) := by
      rw [List.length_take]; omega
    have hto : (buf.take o.toNat).length = o.toNat := by
      rw [List.length_take]; omega
    refine ⟨by simp only; omega, by simp only; omega, ?_, by omega, hw, _, rfl, rfl, ?_, ?_⟩
    · simp only
      rw [max_comm]
      congr 1
      omega
    · simp only [List.length_append, List.length_drop, hw, hto, NETWORKFS_API_ENTRY_MAX_FILE]
      omega
    · intro j hj
      rw [List.getElem?_append_right (by
        simp only [List.length_append, hw, hto]; omega)]
      simp only [List.length_append, hw, hto, List.getElem?_drop]
      congr 1
      omega
  · obtain ⟨r, hr, hne⟩ := networkfs_file_write_short filp buf ubuf n o hbuf hlen2 ho ho2 hn hfull
    exact ⟨r, hr, fun h => absurd h hne⟩

theorem copy_from_user_left (dst : Option (List Nat)) (o : Int) (ubuf : List Nat) (n left : Nat)
    (data : Option (List Nat)) (h : copy_from_user dst o ubuf n = some (left, data)) :
    left ≤ n ∧ (INT_MAX < n → left = n) := by
  unfold copy_from_user at h
  split_ifs at h with h0 h1
  · simp only [Option.some.injEq, Prod.mk.injEq] at h
    omega
  · simp only [Option.some.injEq, Prod.mk.injEq] at h
    omega
  · cases dst with
    | none => simp at h
    | some buf =>
      simp only at h
      split_ifs at h
      simp only [Option.some.injEq, Prod.mk.injEq] at h
      omega

/-- Below the quota a write that returns gives a non-negative value. -/
theorem networkfs_file_write_ret_nonneg (filp : file) (ubuf : List Nat) (n : Nat) (o : Int)
    (ho : 0 ≤ o) (ho2 : o < 512) (r : write_result)
    (hr : networkfs_file_write filp ubuf n o = some r) : 0 ≤ r.ret := by
  have h1 : s64 ((NETWORKFS_API_ENTRY_MAX_FILE : Int) - o) = 512 - o := by
    unfold NETWORKFS_API_ENTRY_MAX_FILE; exact s64_of_range _ (by omega) (by omega)
  have h8 : ¬ (512 - o ≤ 0) := by omega
  unfold networkfs_file_write at hr
  simp only [h1, h8, if_false] at hr
  cases hc : copy_from_user filp.private_data o ubuf (u64 (min (s64 (n : Int)) (512 - o))) with
  | none => rw [hc] at hr; simp at hr
  | some p =>
    obtain ⟨left, data⟩ := p
    rw [hc] at hr
    simp only [Option.some.injEq] at hr
    have hl := copy_from_user_left _ _ _ _ _ _ hc
    rw [← hr]
    simp only
    unfold INT_MAX at hl
    unfold s64 u64 at *
    omega

/-- C7.  At every offset `o ≥ 512` a write returns `-EDQUOT` for every length and
every session, and leaves the file (buffer and size) and the offset as they were; at
every offset `0 ≤ o < 512` a write that returns does not return `-EDQUOT`, and on a
session that holds the 513-byte content buffer it does return, with a non-negative
value. -/
theorem networkfs_file_write_quota (filp : file) (ubuf : List Nat) (n : Nat) (o : Int)
    (hn : n < 18446744073709551616) (hmax : o < 9223372036854775808) :
    (512 ≤ o → networkfs_file_write filp ubuf n o = some ⟨-EDQUOT, o, filp, 0⟩) ∧
    (0 ≤ o → o < 512 → ∀ r, networkfs_file_write filp ubuf n o = some r → r.ret ≠ -EDQUOT) ∧
    (0 ≤ o → o < 512 → ∀ buf, filp.private_data = some buf →
      buf.length = NETWORKFS_API_ENTRY_MAX_FILE + 1 →
      ∃ r, networkfs_file_write filp ubuf n o = some r ∧ 0 ≤ r.ret) := by
  refine ⟨?_, ?_, ?_⟩
  · intro ho
    have h1 : s64 ((NETWORKFS_API_ENTRY_MAX_FILE : Int) - o) = 512 - o := by
      unfold NETWORKFS_API_ENTRY_MAX_FILE; exact s64_of_range _ (by omega) (by omega)
    have h8 : 512 - o ≤ 0 := by omega
    unfold networkfs_file_write
    simp only [h1, h8, if_true]
  · intro ho ho2 r hr
    have := networkfs_file_write_ret_nonneg filp ubuf n o ho ho2 r hr
    unfold EDQUOT
    omega
  · intro ho ho2 buf hbuf hlen
    by_cases hfull : n < 9223372036854775808 ∧ min n (512 - o.toNat) ≤ ubuf.length
    · have h := networkfs_file_write_full filp buf ubuf n o hbuf hlen ho ho2 hfull.1 hfull.2
      exact ⟨_, h, networkfs_file_write_ret_nonneg filp ubuf n o ho ho2 _ h⟩
    · obtain ⟨r, hr, _⟩ := networkfs_file_write_short filp buf ubuf n o hbuf hlen ho ho2 hn hfull
      exact ⟨r, hr, networkfs_file_write_ret_nonneg filp ubuf n o ho ho2 r hr⟩

/-- A read at an offset inside the content: the copy asks for one byte more than the
count it returns. -/
theorem networkfs_file_read_eq (filp : file) (buf : List Nat) (ucap n : Nat) (o : Int)
    (hbuf : filp.private_data = some buf) (hlen : buf.length = 513)
    (hs : filp.i_size ≤ 512) (ho : 0 ≤ o) (hos : o ≤ filp.i_size)
    (hn : n < 9223372036854775808) :
    networkfs_file_read filp ucap n o
      = some (
        if min n (filp.i_size - o).toNat + 1 ≤ ucap then
          ⟨(min n (filp.i_size - o).toNat : Nat), o + (min n (filp.i_size - o).toNat : Nat),
            (List.range (min n (filp.i_size - o).toNat + 1)).map (fun k => o.toNat + k),
            (buf.drop o.toNat).take (min (min n (filp.i_size - o).toNat + 1) ucap), 0⟩
        else
          ⟨-EFAULT, o,
            (List.range (min n (filp.i_size - o).toNat + 1)).map (fun k => o.toNat + k),
            (buf.drop o.toNat).take (min (min n (filp.i_size - o).toNat + 1) ucap),
            min n (filp.i_size - o).toNat + 1 - min (min n (filp.i_size - o).toNat + 1) ucap⟩) := by
  have h1 : s64 (s64 filp.i_size - o) = filp.i_size - o := by unfold s64; omega
  have h2 : s64 (n : Int) = n := s64_of_range _ (by omega) (by omega)
  have h3 : min (n : Int) (filp.i_size - o) = ((min n (filp.i_size - o).toNat : Nat) : Int) := by
    omega
  have h4 : u64 (((min n (filp.i_size - o).toNat : Nat) : Int) + 1)
      = min n (filp.i_size - o).toNat + 1 := by
    unfold u64; omega
  have h5 : ¬ (filp.i_size - o < 0) := by omega
  have c1 : ¬ (min n (filp.i_size - o).toNat + 1 = 0) := by omega
  have c2 : ¬ (INT_MAX < min n (filp.i_size - o).toNat + 1) := by unfold INT_MAX; omega
  have c3 : 0 ≤ o ∧ o.toNat + (min n (filp.i_size - o).toNat + 1) ≤ buf.length := ⟨ho, by omega⟩
  have h6 : s64 (o + ((min n (filp.i_size - o).toNat : Nat) : Int))
      = o + ((min n (filp.i_size - o).toNat : Nat) : Int) := by
    unfold s64; omega
  unfold networkfs_file_read copy_to_user
  simp only [h1, h2, h3, h4, h5, h6, hbuf, c1, c2, c3, if_false, if_true, and_self]
  by_cases hcap : min n (filp.i_size - o).toNat + 1 ≤ ucap
  · have e : min n (filp.i_size - o).toNat + 1 - min (min n (filp.i_size - o).toNat + 1) ucap = 0 := by
      omega
    simp only [e, hcap, if_true, ne_eq, not_true_eq_false, if_false]
  · have e : min n (filp.i_size - o).toNat + 1 - min (min n (filp.i_size - o).toNat + 1) ucap ≠ 0 := by
      omega
    simp only [e, hcap, if_true, ne_eq, not_false_eq_true, if_false]

/-- C4, the claim as stated fails.  On a session of size 4 a read of 4 bytes at offset 0
into a buffer that cannot be written returns `-EFAULT`, not `min(4, 4 - 0) = 4`, and
leaves the offset at 0; and a read of `2^64 - 1` bytes, whose length is `-1` as an
`ssize_t`, returns `-1` and moves the offset to `-1`. -/
theorem networkfs_file_read_not_min :
    (networkfs_file_read ⟨some (List.replicate 513 0), 4, 1000, 0, false⟩ 0 4 0).map
        (fun r => (r.ret, r.offset)) = some (-EFAULT, 0)
    ∧ (networkfs_file_read ⟨some (List.replicate 513 0), 4, 1000, 0, false⟩ 16
        18446744073709551615 0).map (fun r => (r.ret, r.offset)) = some (-1, -1)
    ∧ min (4 : Int) (4 - 0) = 4 := by
  refine ⟨by decide, by decide, by decide⟩

/-- C4, amended.  On a session that holds the 513-byte content buffer, with size
`0 ≤ s ≤ 512`, for every offset `o ≥ 0` and every length `n < 2^63`: if `o ≤ s` the read
returns, its value is not `-EINVAL`, and when `copy_to_user` reports no byte left
uncopied the value is `min(n, s - o)` and the offset advances by that amount; if `o > s`
it returns `-EINVAL` and leaves the offset. -/
theorem networkfs_file_read_count (filp : file) (buf : List Nat) (ucap n : Nat) (o : Int)
    (hbuf : filp.private_data = some buf) (hlen : buf.length = NETWORKFS_API_ENTRY_MAX_FILE + 1)
    (hs0 : 0 ≤ filp.i_size) (hs : filp.i_size ≤ 512) (ho : 0 ≤ o)
    (hmax : o < 9223372036854775808) (hn : n < 9223372036854775808) :
    (o ≤ filp.i_size →
      ∃ r, networkfs_file_read filp ucap n o = some r ∧ r.ret ≠ -EINVAL ∧
        (r.uncopied = 0 →
          r.ret = min (n : Int) (filp.i_size - o) ∧
          r.offset = o + min (n : Int) (filp.i_size - o))) ∧
    (filp.i_size < o → networkfs_file_read filp ucap n o = some ⟨-EINVAL, o, [], [], 0⟩) := by
  refine ⟨?_, ?_⟩
  · intro hos
    refine ⟨_, networkfs_file_read_eq filp buf ucap n o hbuf hlen hs ho hos hn, ?_, ?_⟩
    · split_ifs
      · simp only [EINVAL]; omega
      · simp only [EINVAL, EFAULT]; omega
    · split_ifs with hcap
      · intro _
        simp only
        omega
      · intro h
        simp only at h
        omega
  · intro hso
    have h1 : s64 (s64 filp.i_size - o) = filp.i_size - o := by unfold s64; omega
    have h5 : filp.i_size - o < 0 := by omega
    unfold networkfs_file_read
    simp only [h1, h5, if_true]

/-- C5 (code defect).  On a session of size 3 a read of 10 bytes at offset 0 hands
`copy_to_user` the four indices 0, 1, 2, 3 of the content buffer and stores four bytes
at the caller, the byte at index 3 (the size) included, while it returns 3. -/
theorem networkfs_file_read_copies_index_size :
    networkfs_file_read ⟨some ([97, 98, 99, 120] ++ List.replicate 509 0), 3, 1000, 0, false⟩
        16 10 0
      = some ⟨3, 3, [0, 1, 2, 3], [97, 98, 99, 120], 0⟩ := by
  decide

/-! ## Directory enumeration -/

/-- The record `dir_emit` receives for a listed entry. -/
theorem dir_emit_entry (ctx : dir_context) (e : entry)
    (hname : e.name.length ≤ NETWORKFS_API_ENTRY_MAX_NAME_LEN) :
    dir_emit ctx e.name (s32 (strlen e.name)) e.ino e.entry_type
      = { ctx with emitted := ctx.emitted ++ [⟨c_str e.name, strlen e.name, e.ino, e.entry_type⟩] } := by
  have hle : strlen e.name ≤ e.name.length := by
    unfold strlen
    exact (List.takeWhile_sublist _).length_le
  have h32 : s32 (strlen e.name) = strlen e.name := by
    unfold NETWORKFS_API_ENTRY_MAX_NAME_LEN at hname
    unfold s32; omega
  unfold dir_emit
  rw [h32]
  simp only [Int.toNat_ofNat, take_strlen]

/-- The inner loop emits the `n` entries from index `i` on, in order, and counts each once. -/
theorem iterate_entries_eq (es : List entry)
    (hname : ∀ e ∈ es, e.name.length ≤ NETWORKFS_API_ENTRY_MAX_NAME_LEN) :
    ∀ (n i : Nat) (st : dir_context × Int), i + n ≤ es.length →
      0 ≤ st.1.pos → st.1.pos + n < 9223372036854775808 →
      0 ≤ st.2 → st.2 + n < 9223372036854775808 →
      iterate_entries es n i st
        = some ({ pos := st.1.pos + n,
                  emitted := st.1.emitted ++ ((es.drop i).take n).map
                    (fun e => ⟨c_str e.name, strlen e.name, e.ino, e.entry_type⟩) },
                st.2 + n) := by
  intro n
  induction n with
  | zero =>
    intro i st _ _ _ _ _
    simp [iterate_entries]
  | succ n ih =>
    intro i st hlen hp0 hp1 hc0 hc1
    have hi : i < es.length := by omega
    have hget : es[i]? = some es[i] := List.getElem?_eq_getElem hi
    have hmem : es[i] ∈ es := List.getElem_mem hi
    have hdrop : es.drop i = es[i] :: es.drop (i + 1) := List.drop_eq_getElem_cons hi
    have hpos : s64 (st.1.pos + 1) = st.1.pos + 1 := by unfold s64; omega
    have hcnt : s64 (st.2 + 1) = st.2 + 1 := by unfold s64; omega
    simp only [iterate_entries, hget, count_and_advance, dir_emit_entry _ _ (hname _ hmem), hpos, hcnt]
    rw [ih (i + 1) _ (by omega) (by simp only; omega) (by simp only; push_cast at hp1 ⊢; omega)
      (by simp only; omega) (by simp only; push_cast at hc1 ⊢; omega)]
    simp only [hdrop, List.take_succ_cons, List.map_cons, List.append_assoc, List.singleton_append,
      Nat.cast_add, Nat.cast_one]
    congr 2
    · congr 1; ring
    · ring

/-- From position 3 on (the `default` label) the function returns at once. -/
theorem iterate_loop_default (list_call : Nat → Option entries) (i_ino parent_ino fuel : Nat)
    (ctx : dir_context) (rc : Int) (hpos : 3 ≤ ctx.pos) :
    iterate_loop list_call i_ino parent_ino (fuel + 1) (ctx, rc) = some (s32 rc, ctx) := by
  have h0 : ¬ (ctx.pos = 0) := by omega
  have h1 : ¬ (ctx.pos = 1) := by omega
  have h2 : ¬ (ctx.pos = 2) := by omega
  simp only [iterate_loop, h0, h1, h2, if_false]

/-- One turn of the outer loop at position 0. -/
theorem iterate_loop_dot (list_call : Nat → Option entries) (i_ino parent_ino fuel : Nat)
    (st : dir_context × Int) (hpos : st.1.pos = 0) :
    iterate_loop list_call i_ino parent_ino (fuel + 1) st
      = iterate_loop list_call i_ino parent_ino fuel
          (count_and_advance (dir_emit st.1 [46] 1 i_ino DT_DIR, st.2)) := by
  simp only [iterate_loop, hpos, if_true]

/-- One turn of the outer loop at position 1. -/
theorem iterate_loop_dotdot (list_call : Nat → Option entries) (i_ino parent_ino fuel : Nat)
    (st : dir_context × Int) (hpos : st.1.pos = 1) :
    iterate_loop list_call i_ino parent_ino (fuel + 1) st
      = iterate_loop list_call i_ino parent_ino fuel
          (count_and_advance (dir_emit st.1 [46, 46] 2 parent_ino DT_DIR, st.2)) := by
  have h0 : ¬ ((1 : Int) = 0) := by decide
  simp only [iterate_loop, hpos, h0, if_true, if_false]

/-- One turn of the outer loop at position 2 when the listing call gives a result. -/
theorem iterate_loop_list (list_call : Nat → Option entries) (i_ino parent_ino fuel : Nat)
    (st : dir_context × Int) (lst : entries) (hpos : st.1.pos = 2)
    (hlist : list_call i_ino = some lst) :
    iterate_loop list_call i_ino parent_ino (fuel + 1) st
      = match iterate_entries lst.entries lst.entries_count 0 st with
        | none => none
        | some st1 => iterate_loop list_call i_ino parent_ino fuel (count_and_advance st1) := by
  have h0 : ¬ ((2 : Int) = 0) := by decide
  have h1 : ¬ ((2 : Int) = 1) := by decide
  simp only [iterate_loop, hpos, h0, h1, hlist, if_true, if_false, Int.sub_self, Int.toNat_zero,
    Nat.zero_le, Nat.sub_zero]

/-- One turn of the outer loop at position 2 when the listing call fails. -/
theorem iterate_loop_list_null (list_call : Nat → Option entries) (i_ino parent_ino fuel : Nat)
    (st : dir_context × Int) (hpos : st.1.pos = 2) (hlist : list_call i_ino = none) :
    iterate_loop list_call i_ino parent_ino (fuel + 1) st
      = iterate_loop list_call i_ino parent_ino fuel (count_and_advance st) := by
  have h0 : ¬ ((2 : Int) = 0) := by decide
  have h1 : ¬ ((2 : Int) = 1) := by decide
  simp only [iterate_loop, hpos, h0, h1, hlist, if_true, if_false]

/-- At position 2 the listing is fetched, every listed entry is emitted, and the counter
and the position advance once more than the number of entries emitted. -/
theorem iterate_loop_listing (list_call : Nat → Option entries) (i_ino parent_ino fuel : Nat)
    (lst : entries) (em : List dirent) (rc : Int)
    (hlist : list_call i_ino = some lst) (hk : lst.entries_count ≤ lst.entries.length)
    (hk16 : lst.entries_count ≤ 16)
    (hname : ∀ e ∈ lst.entries, e.name.length ≤ NETWORKFS_API_ENTRY_MAX_NAME_LEN)
    (hrc0 : 0 ≤ rc) (hrc : rc ≤ 2) :
    iterate_loop list_call i_ino parent_ino (fuel + 2) (⟨2, em⟩, rc)
      = some (rc + lst.entries_count + 1,
          ⟨3 + lst.entries_count,
            em ++ (lst.entries.take lst.entries_count).map
              (fun e => ⟨c_str e.name, strlen e.name, e.ino, e.entry_type⟩)⟩) := by
  have hin := iterate_entries_eq lst.entries hname lst.entries_count 0 (⟨2, em⟩, rc)
    (by omega) (by simp) (by simp only; omega) hrc0 (by simp only; omega)
  have hpos : s64 (2 + (lst.entries_count : Int) + 1) = 3 + (lst.entries_count : Int) := by
    unfold s64; omega
  have hcnt : s64 (rc + (lst.entries_count : Int) + 1) = rc + lst.entries_count + 1 := by
    unfold s64; omega
  have h32 : s32 (rc + (lst.entries_count : Int) + 1) = rc + lst.entries_count + 1 := by
    unfold s32; omega
  rw [iterate_loop_list list_call i_ino parent_ino (fuel + 1) _ lst rfl hlist, hin]
  simp only [count_and_advance, List.drop_zero, hpos, hcnt]
  rw [iterate_loop_default _ _ _ _ _ _ (by simp only; omega), h32]

/-- From position 0 with a listing of `k ≤ 16` entries: the function emits `.`, `..` and
the `k` entries in listing order, and returns `3 + k` with the position at `3 + k`. -/
theorem networkfs_iterate_from_start (list_call : Nat → Option entries)
    (i_ino parent_ino fuel : Nat) (lst : entries)
    (hlist : list_call i_ino = some lst) (hk : lst.entries_count ≤ lst.entries.length)
    (hk16 : lst.entries_count ≤ 16)
    (hname : ∀ e ∈ lst.entries, e.name.length ≤ NETWORKFS_API_ENTRY_MAX_NAME_LEN) :
    networkfs_iterate list_call i_ino parent_ino (fuel + 4) ⟨0, []⟩
      = some (3 + (lst.entries_count : Int),
          ⟨3 + (lst.entries_count : Int),
            [⟨[46], 1, i_ino, DT_DIR⟩, ⟨[46, 46], 2, parent_ino, DT_DIR⟩]
              ++ (lst.entries.take lst.entries_count).map
                (fun e => ⟨c_str e.name, strlen e.name, e.ino, e.entry_type⟩)⟩) := by
  have h := iterate_loop_listing list_call i_ino parent_ino fuel lst
    [⟨[46], 1, i_ino, DT_DIR⟩, ⟨[46, 46], 2, parent_ino, DT_DIR⟩] 2 hlist hk hk16 hname
    (by omega) (by omega)
  have e1 : s64 (0 + 1) = 1 := by decide
  have e2 : s64 (1 + 1) = 2 := by decide
  unfold networkfs_iterate
  rw [iterate_loop_dot _ _ _ _ _ rfl]
  simp only [count_and_advance, dir_emit, e1]
  rw [iterate_loop_dotdot _ _ _ _ _ rfl]
  simp only [count_and_advance, dir_emit, e2]
  have t1 : ([46] : List Nat).take (1 : Int).toNat = [46] := by decide
  have t2 : ([46, 46] : List Nat).take (2 : Int).toNat = [46, 46] := by decide
  simp only [t1, t2, List.nil_append, List.cons_append]
  simp only [List.cons_append, List.nil_append] at h
  rw [h]
  congr 2
  omega

/-- C8.  For a directory whose listing holds `k ≤ 16` entries (`k = 0` included), an
enumeration started at position 0 returns and has called `dir_emit` exactly `2 + k`
times, in this order: `.` with the directory's inode number and type directory, `..`
with the parent's inode number and type directory, then the `k` listed entries (name,
inode number, type) in listing order. -/
theorem networkfs_iterate_emits (list_call : Nat → Option entries) (i_ino parent_ino fuel : Nat)
    (lst : entries) (hfuel : 4 ≤ fuel) (hlist : list_call i_ino = some lst)
    (hk16 : lst.entries_count ≤ 16) (hlen : lst.entries.length = 16)
    (hname : ∀ e ∈ lst.entries, e.name.length ≤ NETWORKFS_API_ENTRY_MAX_NAME_LEN) :
    ∃ ret ctx, networkfs_iterate list_call i_ino parent_ino fuel ⟨0, []⟩ = some (ret, ctx) ∧
      ctx.emitted = [⟨[46], 1, i_ino, DT_DIR⟩, ⟨[46, 46], 2, parent_ino, DT_DIR⟩]
        ++ (lst.entries.take lst.entries_count).map
          (fun e => ⟨c_str e.name, strlen e.name, e.ino, e.entry_type⟩) ∧
      ctx.emitted.length = 2 + lst.entries_count := by
  obtain ⟨f, rfl⟩ : ∃ f, fuel = f + 4 := ⟨fuel - 4, by omega⟩
  refine ⟨_, _, networkfs_iterate_from_start list_call i_ino parent_ino f lst hlist (by omega)
    hk16 hname, rfl, ?_⟩
  simp only [List.length_append, List.length_cons, List.length_nil, List.length_map,
    List.length_take]
  omega

/-- C9 (code defect).  Started at position 0 on a directory whose listing is empty, or
whose listing call fails, the function calls `dir_emit` twice (`.` and `..`) but returns
3 and leaves the position at 3; started at position 2 on an empty listing it emits
nothing, returns 1 and leaves the position at 3. -/
theorem networkfs_iterate_counts_one_more (fuel : Nat) :
    networkfs_iterate (fun _ => some ⟨0, List.replicate 16 ⟨0, 0, []⟩⟩) 1000 1000 (fuel + 4) ⟨0, []⟩
      = some (3, ⟨3, [⟨[46], 1, 1000, DT_DIR⟩, ⟨[46, 46], 2, 1000, DT_DIR⟩]⟩)
    ∧ networkfs_iterate (fun _ => none) 1000 1000 (fuel + 4) ⟨0, []⟩
      = some (3, ⟨3, [⟨[46], 1, 1000, DT_DIR⟩, ⟨[46, 46], 2, 1000, DT_DIR⟩]⟩)
    ∧ networkfs_iterate (fun _ => some ⟨0, List.replicate 16 ⟨0, 0, []⟩⟩) 1000 1000 (fuel + 2) ⟨2, []⟩
      = some (1, ⟨3, []⟩) := by
  refine ⟨?_, ?_, ?_⟩
  · rw [networkfs_iterate_from_start _ 1000 1000 fuel ⟨0, List.replicate 16 ⟨0, 0, []⟩⟩ rfl
      (by decide) (by decide) (by decide)]
    rfl
  · unfold networkfs_iterate
    rw [iterate_loop_dot _ _ _ _ _ rfl, iterate_loop_dotdot _ _ _ _ _ rfl,
      iterate_loop_list_null _ _ _ _ _ rfl rfl, iterate_loop_default _ _ _ _ _ _ (by decide)]
    rfl
  · unfold networkfs_iterate
    rw [iterate_loop_listing _ 1000 1000 fuel ⟨0, List.replicate 16 ⟨0, 0, []⟩⟩ [] 0 rfl
      (by decide) (by decide) (by decide) (by decide) (by decide)]
    rfl

/-- C10 (code defect).  On a listing of two entries an invocation started at position 3
emits nothing and returns 0, although the entry at index `3 - 2 = 1` is listed; the
listing is read at position 2 only. -/
theorem networkfs_iterate_no_resume (fuel : Nat) :
    networkfs_iterate
        (fun _ => some ⟨2, [⟨DT_REG, 1001, [97, 0]⟩, ⟨DT_DIR, 1002, [98, 0]⟩]
          ++ List.replicate 14 ⟨0, 0, []⟩⟩) 1000 1000 (fuel + 1) ⟨3, []⟩
      = some (0, ⟨3, []⟩)
    ∧ ((([⟨DT_REG, 1001, [97, 0]⟩, ⟨DT_DIR, 1002, [98, 0]⟩]
          ++ List.replicate 14 ⟨0, 0, []⟩ : List entry).drop (3 - 2)).take (2 - (3 - 2))
        = [⟨DT_DIR, 1002, [98, 0]⟩]) := by
  refine ⟨?_, by decide⟩
  unfold networkfs_iterate
  rw [iterate_loop_default _ _ _ _ _ _ (by decide)]
  rfl

/-! ## The flush-then-open cycle -/

theorem c_str_set_terminator (C rest : List Nat) (hnz : ∀ b ∈ C, b ≠ 0) (hrest : rest ≠ []) :
    c_str ((C ++ rest).set C.length 0) = C := by
  cases rest with
  | nil => exact absurd rfl hrest
  | cons x xs =>
    have : (C ++ x :: xs).set C.length 0 = C ++ 0 :: xs := by
      induction C with
      | nil => rfl
      | cons b bs ih =>
        simp only [List.cons_append, List.length_cons, List.set_cons_succ]
        rw [ih (fun y hy => hnz y (List.mem_cons_of_mem _ hy))]
    rw [this]
    exact c_str_append_nul C xs hnz

/-- The `write` call of a flush, for a content buffer whose string has two-digit escapes
only, carries the formatted inode number and the spec's encoding of the string. -/
theorem networkfs_api_write_request {σ : Type} (char_signed : Bool)
    (http : σ → http_request → σ × Int) (kmalloc : Nat → Nat) (st : σ) (ino : Nat)
    (content : List Nat) (hb : ∀ b ∈ c_str content, b < 256)
    (h7 : char_signed = true → ∀ b ∈ c_str content, b < 128)
    (hlen : (c_str content).length ≤ NETWORKFS_API_ENTRY_MAX_FILE) (hino : ino < 100000000) :
    networkfs_api_write char_signed http (some kmalloc) st ino content
      = some (http st ⟨"write", 0,
          [("inode", fmt_lu ino), ("content", spec_encode (c_str content))]⟩) := by
  unfold NETWORKFS_API_ENTRY_MAX_FILE at hlen
  have hall : (process_string_stores char_signed content).all
      (fun s => decide (s.1 < NETWORKFS_API_ENTRY_MAX_FILE * 3 + 1)) = true := by
    rw [List.all_eq_true]
    intro s hs
    have := process_string_stores_bound char_signed content hb h7 s hs
    unfold NETWORKFS_API_ENTRY_MAX_FILE
    simp only [decide_eq_true_eq]
    omega
  have hstr := c_str_at_networkfs_api_process_string char_signed kmalloc content
    (NETWORKFS_API_ENTRY_MAX_FILE * 3 + 1) hb h7 (by unfold NETWORKFS_API_ENTRY_MAX_FILE; omega)
  unfold networkfs_api_write
  simp only [hall, if_true, sprintf_lu_fits ino hino, hstr]

theorem remote_write_stores (r : remote) (ino data : List Nat) :
    remote_write r ⟨"write", 0, [("inode", ino), ("content", data)]⟩
      = ({ files := (ino, pct_decode data) :: r.files,
           log := r.log ++ [⟨"write", 0, [("inode", ino), ("content", data)]⟩] }, 0) := by
  have h1 : ("content" == "inode") = false := by decide
  simp [remote_write, List.lookup, h1]

theorem remote_read_returns (r : remote) (ino data : List Nat) (rest : List (List Nat × List Nat)) 
    (hfiles : r.files = (ino, data) :: rest) :
    remote_read r ⟨"read", sizeof_content, [("inode", ino)]⟩
      = ({ r with log := r.log ++ [⟨"read", sizeof_content, [("inode", ino)]⟩] }, 0,
          ⟨data.length, data ++ List.replicate (NETWORKFS_API_ENTRY_MAX_FILE + 1 - data.length) 0⟩) := by
  simp [remote_read, List.lookup, hfiles]

theorem networkfs_file_open_stored (r1 : remote) (f : file) (data : List Nat)
    (rest : List (List Nat × List Nat)) (hfiles : r1.files = (fmt_lu f.i_ino, data) :: rest)
    (hino : f.i_ino < 100000000) :
    networkfs_file_open remote_read true r1 f
      = some ({ r1 with log := r1.log ++ [⟨"read", sizeof_content, [("inode", fmt_lu f.i_ino)]⟩] },
          (if f.o_append then
            generic_file_llseek_set
              { f with private_data := some (data ++ List.replicate (NETWORKFS_API_ENTRY_MAX_FILE + 1 - data.length) 0),
                       i_size := s64 data.length } (s64 data.length)
           else
              { f with private_data := some (data ++ List.replicate (NETWORKFS_API_ENTRY_MAX_FILE + 1 - data.length) 0),
                       i_size := s64 data.length }), 0) := by
  have hread := remote_read_returns r1 (fmt_lu f.i_ino) data rest hfiles
  have h32 : s32 0 = 0 := by decide
  unfold networkfs_file_open networkfs_api_read
  rw [sprintf_lu_fits f.i_ino hino]
  simp only [hread, Bool.true_eq_false, if_false, if_true, h32]



/-- C3, the claim as stated fails.  The content `A`, NUL, `B` written at offset 0 of an
empty file and flushed reaches the `write` call as the encoding `%41` of its first byte
only, not as the encoding of its three bytes; reopened, the file has size 1. -/
theorem flush_stops_at_nul :
    (write_flush_reopen false (fun _ => 0) ⟨some (List.replicate 513 0), 0, 1000, 0, false⟩
        [65, 0, 66] ⟨[], []⟩).map
        (fun x => (x.1.log, x.2.i_size, x.2.private_data.map (List.take 3)))
      = some ([⟨"write", 0, [("inode", [49, 48, 48, 48]), ("content", [37, 52, 49])]⟩,
                ⟨"read", 528, [("inode", [49, 48, 48, 48])]⟩], 1, some [65, 0, 0])
    ∧ spec_encode [65, 0, 66] = [37, 52, 49, 37, 48, 48, 37, 52, 50] := by
  refine ⟨by decide, by decide⟩

/-- C3, amended.  For every content `C` of at most 512 bytes without a NUL byte, whose
bytes are below 0x80 where plain `char` is signed, written at offset 0 into an open
session of an empty file whose inode number has at most 8 decimal digits:
`networkfs_file_flush_impl` sends the `write` call the formatted inode number and the
encoding of exactly the bytes of `C`, and against the remote that stores what it is sent
the next open of the inode gives size `len(C)` and a buffer that starts with `C`. -/
theorem flush_then_open_round_trip (char_signed : Bool) (kmalloc : Nat → Nat) (filp : file)
    (buf C : List Nat) (r : remote)
    (hbuf : filp.private_data = some buf) (hlen : buf.length = NETWORKFS_API_ENTRY_MAX_FILE + 1)
    (hsize : filp.i_size = 0) (hC : C.length ≤ NETWORKFS_API_ENTRY_MAX_FILE)
    (hnz : ∀ b ∈ C, b ≠ 0) (hb : ∀ b ∈ C, b < 256)
    (h7 : char_signed = true → ∀ b ∈ C, b < 128) (hino : filp.i_ino < 100000000) :
    ∃ r2 f2, write_flush_reopen char_signed kmalloc filp C r = some (r2, f2) ∧
      r2.log = r.log ++
        [⟨"write", 0, [("inode", fmt_lu filp.i_ino), ("content", spec_encode C)]⟩,
         ⟨"read", sizeof_content, [("inode", fmt_lu filp.i_ino)]⟩] ∧
      f2.i_size = C.length ∧
      ∃ b2, f2.private_data = some b2 ∧ b2.take C.length = C ∧
        b2.length = NETWORKFS_API_ENTRY_MAX_FILE + 1 := by
  unfold NETWORKFS_API_ENTRY_MAX_FILE at hlen hC
  have hmin : min C.length (512 - (0 : Int).toNat) = C.length := by
    simp only [Int.toNat_zero]; omega
  have hw := networkfs_file_write_full filp buf C C.length 0 hbuf hlen (by omega) (by omega)
    (by omega) (by rw [hmin])
  rw [hmin] at hw
  simp only [Int.toNat_zero, List.take_zero, List.nil_append, Nat.zero_add, List.take_length,
    Int.zero_add, hsize] at hw
  have hmax : max (C.length : Int) 0 = C.length := by omega
  rw [hmax] at hw
  have hrest : buf.drop C.length ≠ [] := by
    intro h
    have := congrArg List.length h
    simp only [List.length_drop, List.length_nil] at this
    omega
  have hcs : c_str ((C ++ buf.drop C.length).set C.length 0) = C :=
    c_str_set_terminator C _ hnz hrest
  have hreq := networkfs_api_write_request char_signed remote_write kmalloc r filp.i_ino
    ((C ++ buf.drop C.length).set C.length 0) (by rw [hcs]; exact hb) (by rw [hcs]; exact h7)
    (by rw [hcs]; exact hC) hino
  rw [hcs, remote_write_stores] at hreq
  have hclen : (C ++ buf.drop C.length).length = 513 := by
    simp only [List.length_append, List.length_drop]; omega
  have hflush : networkfs_file_flush_impl char_signed remote_write (some kmalloc) r
      { filp with private_data := some (C ++ buf.drop C.length), i_size := (C.length : Int) }
      = some ({ files := (fmt_lu filp.i_ino, pct_decode (spec_encode C)) :: r.files,
                log := r.log ++ [⟨"write", 0,
                  [("inode", fmt_lu filp.i_ino), ("content", spec_encode C)]⟩] },
              { filp with private_data := some ((C ++ buf.drop C.length).set C.length 0),
                          i_size := (C.length : Int) }, 0) := by
    have hc : C.length < (C ++ buf.drop C.length).length := by
      rw [hclen]; omega
    have h0 : (0 : Int) ≤ (C.length : Int) := by omega
    have h32 : s32 0 = 0 := by decide
    unfold networkfs_file_flush_impl
    simp only [h0, hc, and_self, if_true, Int.toNat_ofNat, hreq, h32]
  rw [pct_decode_spec_encode C hb] at hflush
  have hopen := networkfs_file_open_stored
    { files := (fmt_lu filp.i_ino, C) :: r.files,
      log := r.log ++ [⟨"write", 0, [("inode", fmt_lu filp.i_ino), ("content", spec_encode C)]⟩] }
    { filp with private_data := some ((C ++ buf.drop C.length).set C.length 0),
                i_size := (C.length : Int) }
    C r.files rfl hino
  have h64 : s64 ((C.length : Nat) : Int) = C.length := s64_of_range _ (by omega) (by omega)
  rw [h64] at hopen
  unfold write_flush_reopen
  rw [hw, Option.some_bind]
  simp only []
  rw [hflush, Option.some_bind]
  simp only []
  rw [hopen, Option.map_some']
  refine ⟨_, _, rfl, ?_, ?_, ?_⟩
  · simp only [List.append_assoc, List.singleton_append]
  · cases filp.o_append
    · rfl
    · simp only [if_true, generic_file_llseek_set]
      split_ifs <;> rfl
  · refine ⟨C ++ List.replicate (NETWORKFS_API_ENTRY_MAX_FILE + 1 - C.length) 0, ?_, ?_, ?_⟩
    · cases filp.o_append
      · rfl
      · simp only [if_true, generic_file_llseek_set]
        split_ifs <;> rfl
    · exact List.take_left _ _
    · simp only [List.length_append, List.length_replicate, NETWORKFS_API_ENTRY_MAX_FILE]
      omega

/-! ## The calls of `networkfs-api.c`: requests -/

/-- With two-digit escapes and a name of at most 256 bytes the local array receives the
spec's encoding of the name. -/
theorem process_name_within (char_signed : Bool) (stack : Nat → Nat) (name : List Nat)
    (hb : ∀ b ∈ c_str name, b < 256) (h7 : char_signed = true → ∀ b ∈ c_str name, b < 128)
    (hlen : (c_str name).length ≤ NETWORKFS_API_ENTRY_MAX_NAME_LEN) :
    process_name char_signed stack name = some (spec_encode (c_str name)) := by
  unfold NETWORKFS_API_ENTRY_MAX_NAME_LEN at hlen
  have hall : (process_string_stores char_signed name).all
      (fun s => decide (s.1 < NETWORKFS_API_ENTRY_MAX_NAME_LEN * 3 + 1)) = true := by
    rw [List.all_eq_true]
    intro s hs
    have := process_string_stores_bound char_signed name hb h7 s hs
    unfold NETWORKFS_API_ENTRY_MAX_NAME_LEN
    simp only [decide_eq_true_eq]
    omega
  have hstr := c_str_at_networkfs_api_process_string char_signed stack name
    (NETWORKFS_API_ENTRY_MAX_NAME_LEN * 3 + 1) hb h7
    (by unfold NETWORKFS_API_ENTRY_MAX_NAME_LEN; omega)
  unfold process_name
  simp only [hall, if_true, hstr]

theorem networkfs_api_list_request {σ : Type} (http : σ → http_request → σ × Int × entries)
    (st : σ) (i_ino : Nat) (hino : i_ino < 100000000) :
    networkfs_api_list http true st i_ino
      = some ((http st ⟨"list", sizeof_entries, [("inode", fmt_lu i_ino)]⟩).1,
          if (http st ⟨"list", sizeof_entries, [("inode", fmt_lu i_ino)]⟩).2.1 = 0
          then some (http st ⟨"list", sizeof_entries, [("inode", fmt_lu i_ino)]⟩).2.2 else none) := by
  unfold networkfs_api_list
  rw [sprintf_lu_fits i_ino hino, Option.some_bind]
  simp only [Bool.true_eq_false, if_false]

theorem networkfs_api_read_request {σ : Type} (http : σ → http_request → σ × Int × content)
    (st : σ) (ino : Nat) (hino : ino < 100000000) :
    networkfs_api_read http true st ino
      = some ((http st ⟨"read", sizeof_content, [("inode", fmt_lu ino)]⟩).1,
          (http st ⟨"read", sizeof_content, [("inode", fmt_lu ino)]⟩).2.1,
          if (http st ⟨"read", sizeof_content, [("inode", fmt_lu ino)]⟩).2.1 = 0
          then some (http st ⟨"read", sizeof_content, [("inode", fmt_lu ino)]⟩).2.2 else none) := by
  unfold networkfs_api_read
  simp only [Bool.true_eq_false, if_false, sprintf_lu_fits ino hino]

theorem networkfs_api_lookup_request {σ : Type} (char_signed : Bool)
    (http : σ → http_request → σ × Int × entry_info) (stack : Nat → Nat) (st : σ)
    (parent_ino : Nat) (name : List Nat)
    (hb : ∀ b ∈ c_str name, b < 256) (h7 : char_signed = true → ∀ b ∈ c_str name, b < 128)
    (hlen : (c_str name).length ≤ NETWORKFS_API_ENTRY_MAX_NAME_LEN)
    (hino : parent_ino < 100000000) :
    networkfs_api_lookup char_signed http true stack st parent_ino name
      = some ((http st ⟨"lookup", sizeof_entries,
            [("parent", fmt_lu parent_ino), ("name", spec_encode (c_str name))]⟩).1,
          if (http st ⟨"lookup", sizeof_entries,
            [("parent", fmt_lu parent_ino), ("name", spec_encode (c_str name))]⟩).2.1 = 0
          then some (http st ⟨"lookup", sizeof_entries,
            [("parent", fmt_lu parent_ino), ("name", spec_encode (c_str name))]⟩).2.2
          else none) := by
  unfold networkfs_api_lookup
  rw [sprintf_lu_fits parent_ino hino, Option.some_bind,
    process_name_within char_signed stack name hb h7 hlen, Option.some_bind]
  simp only [Bool.true_eq_false, if_false]

theorem networkfs_api_create_request {σ : Type} (char_signed : Bool)
    (http : σ → http_request → σ × Int × Nat) (stack : Nat → Nat) (st : σ)
    (parent_ino : Nat) (name : List Nat) (type : Nat)
    (hb : ∀ b ∈ c_str name, b < 256) (h7 : char_signed = true → ∀ b ∈ c_str name, b < 128)
    (hlen : (c_str name).length ≤ NETWORKFS_API_ENTRY_MAX_NAME_LEN)
    (hino : parent_ino < 100000000) :
    networkfs_api_create char_signed http stack st parent_ino name type
      = some (http st ⟨"create", sizeof_ino_t,
          [("parent", fmt_lu parent_ino), ("name", spec_encode (c_str name)),
           ("type", if type = DT_DIR then c_lit "directory" else c_lit "file")]⟩) := by
  unfold networkfs_api_create
  rw [sprintf_lu_fits parent_ino hino, Option.some_bind,
    process_name_within char_signed stack name hb h7 hlen, Option.some_bind]

theorem networkfs_api_remove_request {σ : Type} (char_signed : Bool)
    (http : σ → http_request → σ × Int) (stack : Nat → Nat) (st : σ)
    (parent_ino : Nat) (name : List Nat) (type : Nat)
    (hb : ∀ b ∈ c_str name, b < 256) (h7 : char_signed = true → ∀ b ∈ c_str name, b < 128)
    (hlen : (c_str name).length ≤ NETWORKFS_API_ENTRY_MAX_NAME_LEN)
    (hino : parent_ino < 100000000) :
    networkfs_api_remove char_signed http stack st parent_ino name type
      = some (http st ⟨if type = DT_DIR then "rmdir" else "unlink", 0,
          [("parent", fmt_lu parent_ino), ("name", spec_encode (c_str name))]⟩) := by
  unfold networkfs_api_remove
  rw [sprintf_lu_fits parent_ino hino, Option.some_bind,
    process_name_within char_signed stack name hb h7 hlen, Option.some_bind]

theorem networkfs_api_link_request {σ : Type} (char_signed : Bool)
    (http : σ → http_request → σ × Int) (stack : Nat → Nat) (st : σ)
    (source_ino parent_ino : Nat) (name : List Nat)
    (hb : ∀ b ∈ c_str name, b < 256) (h7 : char_signed = true → ∀ b ∈ c_str name, b < 128)
    (hlen : (c_str name).length ≤ NETWORKFS_API_ENTRY_MAX_NAME_LEN)
    (hsrc : source_ino < 100000000) (hino : parent_ino < 100000000) :
    networkfs_api_link char_signed http stack st source_ino parent_ino name
      = some (http st ⟨"link", 0,
          [("source", fmt_lu source_ino), ("parent", fmt_lu parent_ino),
           ("name", spec_encode (c_str name))]⟩) := by
  unfold networkfs_api_link
  rw [sprintf_lu_fits parent_ino hino, Option.some_bind, sprintf_lu_fits source_ino hsrc,
    Option.some_bind, process_name_within char_signed stack name hb h7 hlen, Option.some_bind]

/-- The record sizes on LP64. -/
theorem sizeof_values :
    sizeof_entry = 272 ∧ sizeof_entries = 4360 ∧ sizeof_entry_info = 16 ∧ sizeof_ino_t = 8
    ∧ sizeof_content = struct_size [(8, 8), (NETWORKFS_API_ENTRY_MAX_FILE + 1, 1)] := by
  decide

/-- C11 (code defect).  The `lookup` call hands the transport the capacity
`sizeof(struct entries)` (4360 bytes), not the size of the `struct entry_info` (16 bytes)
that is decoded from the response. -/
theorem networkfs_api_lookup_capacity :
    (networkfs_api_lookup false (recording_http 0 ⟨DT_REG, 1001⟩) true (fun _ => 0) [] 1000
        [97]).map (fun r => r.1)
      = some [⟨"lookup", sizeof_entries, [("parent", [49, 48, 48, 48]), ("name", [37, 54, 49])]⟩]
    ∧ sizeof_entries = 4360 ∧ sizeof_entry_info = 16 := by
  refine ⟨by decide, by decide, by decide⟩

/-- C12 (code defect).  Where plain `char` is signed, the `lookup` call for the one-byte
name 0x80 carries the name value `%ff`, not the encoding `%80` of the name; and for the
parent inode number 100000000 the decimal string does not fit the 9-byte array in which it
is formatted, so that no call with a defined argument is made. -/
theorem networkfs_api_lookup_name_value :
    (networkfs_api_lookup true (recording_http 0 ⟨DT_REG, 1001⟩) true (fun _ => 0) [] 1000
        [128]).map (fun r => r.1)
      = some [⟨"lookup", sizeof_entries, [("parent", [49, 48, 48, 48]), ("name", [37, 102, 102])]⟩]
    ∧ spec_encode [128] = [37, 56, 48]
    ∧ (networkfs_api_lookup false (recording_http 0 ⟨DT_REG, 1001⟩) true (fun _ => 0) []
        100000000 [97]).isSome = false := by
  refine ⟨by decide, by decide, by decide⟩

/-- C13 (code defect).  `networkfs_create` and `networkfs_mkdir` do not reject a name of
300 bytes: without any check the name is encoded into the 769-byte local array, with
stores at index 900 and beyond, which is a memory fault; a name of 256 bytes is sent to
the remote. -/
theorem networkfs_create_long_name :
    networkfs_create false (recording_http 0 1005) true (fun _ => 0) [] [] 1000
        (List.replicate 300 97) = none
    ∧ networkfs_mkdir false (recording_http 0 1005) true (fun _ => 0) [] [] 1000
        (List.replicate 300 97) = none
    ∧ (process_string_stores false (List.replicate 300 97)).any (fun s => decide (900 ≤ s.1)) = true
    ∧ (networkfs_create false (recording_http 0 1005) true (fun _ => 0) [] [] 1000
        (List.replicate 256 97)).map (fun r => (r.1.length, r.2.1)) = some (1, 0) := by
  refine ⟨by decide, by decide, by decide, by decide⟩

/-- C17 (code defect).  After an open whose `read` call returns status 1 the session has
no buffer and the open returns 1; on that session a read of one byte at offset 0 and a
write of one byte at offset 0 go through the null pointer (a memory fault) instead of
returning an error. -/
theorem file_ops_without_buffer :
    (networkfs_file_open (recording_http 1 ⟨0, []⟩) true [] ⟨none, 0, 1000, 0, false⟩).map
        (fun r => (r.2.1.private_data, r.2.1.i_size, r.2.2)) = some (none, 0, 1)
    ∧ networkfs_file_read ⟨none, 0, 1000, 0, false⟩ 16 1 0 = none
    ∧ networkfs_file_write ⟨none, 0, 1000, 0, false⟩ [97] 1 0 = none := by
  refine ⟨by decide, by decide, by decide⟩

/-- C18 (code defect).  The inode number 100000000 has 9 decimal digits, which with the
terminator need 10 bytes, and the largest inode number needs 21; the array in which they
are formatted has `sizeof(unsigned long) + 1 = 9` bytes. -/
theorem sprintf_lu_overflow :
    sprintf_lu ino_str_size 100000000 = none
    ∧ (fmt_lu 100000000).length + 1 = 10
    ∧ (fmt_lu 18446744073709551615).length + 1 = 21
    ∧ ino_str_size = 9 := by
  refine ⟨by decide, by decide, by decide, by decide⟩

/-- C20 (code defect).  Where plain `char` is signed, the encoder stores at index 9 for
the one-byte input 0x80, beyond `3 * 1`; for a content of 512 bytes that ends in 0x80 it
stores beyond the 1537 bytes of its destination, and for a name of 256 bytes that ends in
0x80 beyond the 769 bytes of its destination. -/
theorem process_string_store_past_end :
    (9, 0) ∈ process_string_stores true [128]
    ∧ (process_string_stores true (List.replicate 511 65 ++ [128])).any
        (fun s => decide (NETWORKFS_API_ENTRY_MAX_FILE * 3 + 1 ≤ s.1)) = true
    ∧ (process_string_stores true (List.replicate 255 65 ++ [128])).any
        (fun s => decide (NETWORKFS_API_ENTRY_MAX_NAME_LEN * 3 + 1 ≤ s.1)) = true := by
  refine ⟨by decide, by decide, by decide⟩

/-! ## Inode operations -/

/-- When no store of the encoder falls outside the local array, the array holds the
string the encoder produced. -/
theorem process_name_of_fits (char_signed : Bool) (stack : Nat → Nat) (name : List Nat)
    (hname : (process_string_stores char_signed name).all
      (fun s => decide (s.1 < NETWORKFS_API_ENTRY_MAX_NAME_LEN * 3 + 1)) = true) :
    process_name char_signed stack name
      = some (c_str_at (networkfs_api_process_string char_signed stack name)
          (NETWORKFS_API_ENTRY_MAX_NAME_LEN * 3 + 1) 0) := by
  unfold process_name
  simp only [hname, if_true]

theorem sprintf_lu_of_fits (ino : Nat) (h : (fmt_lu ino).length + 1 ≤ ino_str_size) :
    sprintf_lu ino_str_size ino = some (fmt_lu ino) := by
  unfold sprintf_lu
  rw [if_pos h]

/-- C14, the claim as stated fails.  A name of exactly 256 bytes, which is not longer
than the maximum, is rejected without any call; and the rejection of a 300-byte name
gives the error pointer -1 (`EPERM`), not `-EINVAL`. -/
theorem networkfs_lookup_rejects_256 :
    networkfs_lookup false (recording_http 0 ⟨DT_REG, 1001⟩) true true (fun _ => 0) [] [] 1000
        (List.replicate 256 97) = some ([], -1, [])
    ∧ networkfs_lookup false (recording_http 0 ⟨DT_REG, 1001⟩) true true (fun _ => 0) [] [] 1000
        (List.replicate 300 97) = some ([], -1, [])
    ∧ (-1 : Int) ≠ -EINVAL := by
  refine ⟨by decide, by decide, by decide⟩

/-- C14, amended.  For every name of 256 bytes or more `networkfs_lookup` is rejected
locally: the transport state and the local tree are as before and the value is the error
pointer -1.  For every name shorter than 256 bytes it is not rejected: when the encoded
name and the formatted parent inode number fit their arrays and the response is
allocated, the transport is called exactly once, with the `lookup` request, the value is
the null pointer, and a node is bound exactly when the status is 0. -/
theorem networkfs_lookup_name_limit {σ : Type} (char_signed : Bool)
    (http : σ → http_request → σ × Int × entry_info) (kmalloc new_inode : Bool)
    (stack : Nat → Nat) (st : σ) (tree : dcache) (parent_ino : Nat) (name : List Nat) :
    (NETWORKFS_API_ENTRY_MAX_NAME_LEN ≤ strlen name →
      networkfs_lookup char_signed http kmalloc new_inode stack st tree parent_ino name
        = some (st, -1, tree)) ∧
    (strlen name < NETWORKFS_API_ENTRY_MAX_NAME_LEN → kmalloc = true →
      (process_string_stores char_signed name).all
        (fun s => decide (s.1 < NETWORKFS_API_ENTRY_MAX_NAME_LEN * 3 + 1)) = true →
      (fmt_lu parent_ino).length + 1 ≤ ino_str_size →
      ∃ st1 code info,
        http st ⟨"lookup", sizeof_entries,
          [("parent", fmt_lu parent_ino),
           ("name", c_str_at (networkfs_api_process_string char_signed stack name)
              (NETWORKFS_API_ENTRY_MAX_NAME_LEN * 3 + 1) 0)]⟩ = (st1, code, info) ∧
        networkfs_lookup char_signed http kmalloc new_inode stack st tree parent_ino name
          = some (st1, 0,
              if code = 0 then
                d_add tree name
                  (networkfs_get_inode new_inode (NETWORKFS_DTOS info.entry_type) info.ino)
              else tree)) := by
  refine ⟨?_, ?_⟩
  · intro h
    unfold networkfs_lookup
    rw [if_pos h]
  · intro h hk hname hino
    subst hk
    refine ⟨_, _, _, rfl, ?_⟩
    unfold networkfs_lookup networkfs_api_lookup
    rw [if_neg (by omega), sprintf_lu_of_fits parent_ino hino, Option.some_bind,
      process_name_of_fits char_signed stack name hname, Option.some_bind]
    simp only [Bool.true_eq_false, if_false, Option.map_some']
    split_ifs <;> rfl

/-- C15, the claim as stated fails.  With the transport status `2^32` the function
creates no node and returns 0, not the status; and with status 0 and no inode from
`new_inode` the name is bound to a null inode. -/
theorem networkfs_create_impl_not_status :
    networkfs_create false (recording_http 4294967296 1005) true (fun _ => 0) [] [] 1000 [97]
      = some ([⟨"create", 8, [("parent", [49, 48, 48, 48]), ("name", [37, 54, 49]),
          ("type", [102, 105, 108, 101])]⟩], 0, [])
    ∧ (networkfs_create false (recording_http 0 1005) false (fun _ => 0) [] [] 1000 [97]).map
        (fun r => r.2) = some (0, [([97], none)]) := by
  refine ⟨by decide, by decide⟩

/-- C15, amended.  For every create request, file or directory, whose encoded name and
formatted parent inode number fit their arrays, the transport is called once with the
`create` request, whose type is `directory` exactly when the kind is `S_IFDIR`; when
`new_inode` gives an inode, a node is bound at the name if and only if the status is 0,
with the inode number the transport returned and the requested kind, and otherwise the
tree is unchanged; the value returned is the status cast to `int`, which is the status
itself when it lies in the range of `int`. -/
theorem networkfs_create_impl_status {σ : Type} (char_signed : Bool)
    (http : σ → http_request → σ × Int × Nat) (stack : Nat → Nat) (st : σ) (tree : dcache)
    (parent_ino : Nat) (name : List Nat) (type : Nat)
    (htype : type = S_IFREG ∨ type = S_IFDIR)
    (hname : (process_string_stores char_signed name).all
      (fun s => decide (s.1 < NETWORKFS_API_ENTRY_MAX_NAME_LEN * 3 + 1)) = true)
    (hino : (fmt_lu parent_ino).length + 1 ≤ ino_str_size) :
    ∃ st1 code created_ino,
      http st ⟨"create", sizeof_ino_t,
        [("parent", fmt_lu parent_ino),
         ("name", c_str_at (networkfs_api_process_string char_signed stack name)
            (NETWORKFS_API_ENTRY_MAX_NAME_LEN * 3 + 1) 0),
         ("type", if type = S_IFDIR then c_lit "directory" else c_lit "file")]⟩
        = (st1, code, created_ino) ∧
      networkfs_create_impl char_signed http true stack st tree parent_ino name type
        = some (st1, s32 code,
            if code = 0 then
              (c_str name, some ⟨created_ino, type ||| S_IRWXUGO, decide (type = S_IFDIR)⟩) :: tree
            else tree) ∧
      (-2147483648 ≤ code → code < 2147483648 → s32 code = code) := by
  have hstod : (if NETWORKFS_STOD type = DT_DIR then c_lit "directory" else c_lit "file")
      = (if type = S_IFDIR then c_lit "directory" else c_lit "file") := by
    rcases htype with h | h <;> subst h <;> decide
  refine ⟨_, _, _, rfl, ?_, ?_⟩
  · unfold networkfs_create_impl networkfs_api_create
    rw [sprintf_lu_of_fits parent_ino hino, Option.some_bind,
      process_name_of_fits char_signed stack name hname, Option.some_bind,
      Option.map_some', hstod]
    rfl
  · intro h1 h2
    unfold s32
    omega

/-- C16, the claim as stated fails.  With the transport status `2^32` both
`networkfs_rmdir` and `networkfs_unlink` return 0, not the status. -/
theorem networkfs_remove_impl_not_status :
    networkfs_rmdir false (recording_http_status 4294967296) (fun _ => 0) [] [([97], none)]
        1000 [97]
      = some ([⟨"rmdir", 0, [("parent", [49, 48, 48, 48]), ("name", [37, 54, 49])]⟩], 0,
          [([97], none)])
    ∧ networkfs_unlink false (recording_http_status 4294967296) (fun _ => 0) [] [([97], none)]
        1000 [97]
      = some ([⟨"unlink", 0, [("parent", [49, 48, 48, 48]), ("name", [37, 54, 49])]⟩], 0,
          [([97], none)]) := by
  refine ⟨by decide, by decide⟩

/-- C16, amended.  For every name and parent inode number whose encoded and formatted
forms fit their arrays: `networkfs_api_remove` calls the method `rmdir` exactly when the
kind is `DT_DIR` and `unlink` otherwise; `networkfs_rmdir` calls `rmdir` and
`networkfs_unlink` calls `unlink`, once; both return the transport status cast to `int`,
which is the status itself when it lies in the range of `int` (so 8 is returned as 8),
and leave the local tree as it was. -/
theorem networkfs_remove_impl_status {σ : Type} (char_signed : Bool)
    (http : σ → http_request → σ × Int) (stack : Nat → Nat) (st : σ) (tree : dcache)
    (parent_ino : Nat) (name : List Nat)
    (hname : (process_string_stores char_signed name).all
      (fun s => decide (s.1 < NETWORKFS_API_ENTRY_MAX_NAME_LEN * 3 + 1)) = true)
    (hino : (fmt_lu parent_ino).length + 1 ≤ ino_str_size) :
    (∀ type, networkfs_api_remove char_signed http stack st parent_ino name type
      = some (http st ⟨if type = DT_DIR then "rmdir" else "unlink", 0,
          [("parent", fmt_lu parent_ino),
           ("name", c_str_at (networkfs_api_process_string char_signed stack name)
              (NETWORKFS_API_ENTRY_MAX_NAME_LEN * 3 + 1) 0)]⟩)) ∧
    networkfs_rmdir char_signed http stack st tree parent_ino name
      = some ((http st ⟨"rmdir", 0,
            [("parent", fmt_lu parent_ino),
             ("name", c_str_at (networkfs_api_process_string char_signed stack name)
                (NETWORKFS_API_ENTRY_MAX_NAME_LEN * 3 + 1) 0)]⟩).1,
          s32 (http st ⟨"rmdir", 0,
            [("parent", fmt_lu parent_ino),
             ("name", c_str_at (networkfs_api_process_string char_signed stack name)
                (NETWORKFS_API_ENTRY_MAX_NAME_LEN * 3 + 1) 0)]⟩).2, tree) ∧
    networkfs_unlink char_signed http stack st tree parent_ino name
      = some ((http st ⟨"unlink", 0,
            [("parent", fmt_lu parent_ino),
             ("name", c_str_at (networkfs_api_process_string char_signed stack name)
                (NETWORKFS_API_ENTRY_MAX_NAME_LEN * 3 + 1) 0)]⟩).1,
          s32 (http st ⟨"unlink", 0,
            [("parent", fmt_lu parent_ino),
             ("name", c_str_at (networkfs_api_process_string char_signed stack name)
                (NETWORKFS_API_ENTRY_MAX_NAME_LEN * 3 + 1) 0)]⟩).2, tree) ∧
    (∀ code : Int, -2147483648 ≤ code → code < 2147483648 → s32 code = code) ∧
    s32 8 = 8 := by
  have hrem : ∀ type, networkfs_api_remove char_signed http stack st parent_ino name type
      = some (http st ⟨if type = DT_DIR then "rmdir" else "unlink", 0,
          [("parent", fmt_lu parent_ino),
           ("name", c_str_at (networkfs_api_process_string char_signed stack name)
              (NETWORKFS_API_ENTRY_MAX_NAME_LEN * 3 + 1) 0)]⟩) := by
    intro type
    unfold networkfs_api_remove
    rw [sprintf_lu_of_fits parent_ino hino, Option.some_bind,
      process_name_of_fits char_signed stack name hname, Option.some_bind]
  refine ⟨hrem, ?_, ?_, ?_, by decide⟩
  · unfold networkfs_rmdir networkfs_remove_impl
    rw [hrem, Option.map_some']
    rfl
  · unfold networkfs_unlink networkfs_remove_impl
    rw [hrem, Option.map_some']
    rfl
  · intro code h1 h2
    unfold s32
    omega

/-! ## Sequences of operations: the size of the session -/

theorem copy_from_user_length (buf ubuf : List Nat) (o : Int) (n left : Nat)
    (data : Option (List Nat)) (h : copy_from_user (some buf) o ubuf n = some (left, data)) :
    ∃ b, data = some b ∧ b.length = buf.length := by
  unfold copy_from_user at h
  split_ifs at h with h0 h1
  · simp only [Option.some.injEq, Prod.mk.injEq] at h
    exact ⟨buf, h.2.symm, rfl⟩
  · simp only [Option.some.injEq, Prod.mk.injEq] at h
    exact ⟨buf, h.2.symm, rfl⟩
  · simp only at h
    split_ifs at h with h2
    simp only [Option.some.injEq, Prod.mk.injEq] at h
    refine ⟨_, h.2.symm, ?_⟩
    simp only [List.length_append, List.length_take, List.length_replicate, List.length_drop]
    omega

/-- A write at a non-negative offset keeps the size between 0 and 512 and the buffer at
its length. -/
theorem networkfs_file_write_keeps_size (filp : file) (buf ubuf : List Nat) (n : Nat) (o : Int)
    (hbuf : filp.private_data = some buf) (h0 : 0 ≤ filp.i_size) (h512 : filp.i_size ≤ 512)
    (ho : 0 ≤ o) (hmax : o < 9223372036854775808) (r : write_result)
    (hr : networkfs_file_write filp ubuf n o = some r) :
    0 ≤ r.filp.i_size ∧ r.filp.i_size ≤ 512 ∧
      ∃ b, r.filp.private_data = some b ∧ b.length = buf.length := by
  have h1 : s64 ((NETWORKFS_API_ENTRY_MAX_FILE : Int) - o) = 512 - o := by
    unfold NETWORKFS_API_ENTRY_MAX_FILE; exact s64_of_range _ (by omega) (by omega)
  unfold networkfs_file_write at hr
  simp only [h1] at hr
  by_cases hq : 512 - o ≤ 0
  · simp only [hq, if_true, Option.some.injEq] at hr
    subst hr
    exact ⟨h0, h512, buf, hbuf, rfl⟩
  · simp only [hq, if_false, hbuf] at hr
    cases hc : copy_from_user (some buf) o ubuf (u64 (min (s64 (n : Int)) (512 - o))) with
    | none => rw [hc] at hr; simp at hr
    | some p =>
      obtain ⟨left, data⟩ := p
      rw [hc] at hr
      simp only [Option.some.injEq] at hr
      have hl := copy_from_user_left _ _ _ _ _ _ hc
      obtain ⟨b, hb, hblen⟩ := copy_from_user_length _ _ _ _ _ _ hc
      subst hr
      simp only
      refine ⟨?_, ?_, b, hb, hblen⟩
      · unfold INT_MAX at hl
        unfold s64 u64 at *
        omega
      · unfold INT_MAX at hl
        unfold s64 u64 at *
        omega

/-- A read at a non-negative offset of a session with its buffer and a size of at most
512 returns. -/
theorem networkfs_file_read_returns (filp : file) (buf : List Nat) (ucap n : Nat) (o : Int)
    (hbuf : filp.private_data = some buf) (hlen : buf.length = 513)
    (h0 : 0 ≤ filp.i_size) (h512 : filp.i_size ≤ 512)
    (ho : 0 ≤ o) (hmax : o < 9223372036854775808) :
    (networkfs_file_read filp ucap n o).isSome = true := by
  have h1 : s64 (s64 filp.i_size - o) = filp.i_size - o := by unfold s64; omega
  unfold networkfs_file_read copy_to_user
  simp only [h1, hbuf]
  by_cases hneg : filp.i_size - o < 0
  · simp only [hneg, if_true, Option.isSome_some]
  · simp only [hneg, if_false]
    by_cases hz : u64 (min (s64 (n : Int)) (filp.i_size - o) + 1) = 0
    · simp only [hz, if_true]
      split_ifs <;> rfl
    · simp only [hz, if_false]
      by_cases hbig : INT_MAX < u64 (min (s64 (n : Int)) (filp.i_size - o) + 1)
      · simp only [hbig, if_true]
        split_ifs <;> rfl
      · have hin : 0 ≤ o ∧ o.toNat + u64 (min (s64 (n : Int)) (filp.i_size - o) + 1) ≤ buf.length := by
          refine ⟨ho, ?_⟩
          unfold INT_MAX at hbig
          unfold s64 u64 at *
          omega
        simp only [hbig, if_false, hin, and_self, if_true]
        split_ifs <;> rfl

/-- A write at a non-negative offset of a session with its buffer returns. -/
theorem networkfs_file_write_returns (filp : file) (buf ubuf : List Nat) (n : Nat) (o : Int)
    (hbuf : filp.private_data = some buf) (hlen : buf.length = 513)
    (ho : 0 ≤ o) (hmax : o < 9223372036854775808) (hn : n < 18446744073709551616) :
    (networkfs_file_write filp ubuf n o).isSome = true := by
  by_cases hq : o < 512
  · by_cases hfull : n < 9223372036854775808 ∧ min n (512 - o.toNat) ≤ ubuf.length
    · rw [networkfs_file_write_full filp buf ubuf n o hbuf hlen ho hq hfull.1 hfull.2]
      rfl
    · obtain ⟨r, hr, _⟩ := networkfs_file_write_short filp buf ubuf n o hbuf hlen ho hq hn hfull
      rw [hr]
      rfl
  · have h1 : s64 ((NETWORKFS_API_ENTRY_MAX_FILE : Int) - o) = 512 - o := by
      unfold NETWORKFS_API_ENTRY_MAX_FILE; exact s64_of_range _ (by omega) (by omega)
    have h8 : 512 - o ≤ 0 := by omega
    unfold networkfs_file_write
    simp only [h1, h8, if_true, Option.isSome_some]

/-- A flush that returns leaves the size as it was and the buffer at its length. -/
theorem networkfs_file_flush_impl_keeps_size {σ : Type} (char_signed : Bool)
    (http : σ → http_request → σ × Int) (kmalloc : Option (Nat → Nat)) (st : σ) (filp : file)
    (buf : List Nat) (hbuf : filp.private_data = some buf) (x : σ × file × Int)
    (hx : networkfs_file_flush_impl char_signed http kmalloc st filp = some x) :
    x.2.1.i_size = filp.i_size ∧ ∃ b, x.2.1.private_data = some b ∧ b.length = buf.length := by
  unfold networkfs_file_flush_impl at hx
  simp only [hbuf] at hx
  split_ifs at hx with hidx
  cases hw : networkfs_api_write char_signed http kmalloc st filp.i_ino
      (buf.set filp.i_size.toNat 0) with
  | none => rw [hw] at hx; simp at hx
  | some p =>
    rw [hw] at hx
    simp only [Option.some.injEq] at hx
    subst hx
    exact ⟨rfl, _, rfl, List.length_set _ _ _⟩


/-- One operation keeps the size between 0 and 512 and the buffer at 513 bytes. -/
theorem session_step_keeps_size {σ : Type} (char_signed : Bool)
    (http : σ → http_request → σ × Int) (op : session_op) (s s1 : σ × file) (buf : List Nat)
    (hbuf : s.2.private_data = some buf) (hlen : buf.length = 513)
    (h0 : 0 ≤ s.2.i_size) (h512 : s.2.i_size ≤ 512) (hop : op.in_range)
    (hs : session_step char_signed http op s = some s1) :
    0 ≤ s1.2.i_size ∧ s1.2.i_size ≤ 512 ∧ ∃ b, s1.2.private_data = some b ∧ b.length = 513 := by
  cases op with
  | read ucap len offset =>
    simp only [session_step, Option.map_eq_some'] at hs
    obtain ⟨_, _, rfl⟩ := hs
    exact ⟨h0, h512, buf, hbuf, hlen⟩
  | write buffer len offset =>
    simp only [session_step, Option.map_eq_some'] at hs
    obtain ⟨w, hw, rfl⟩ := hs
    obtain ⟨ho, hmax, _⟩ := hop
    obtain ⟨a, b, c, hc, hcl⟩ := networkfs_file_write_keeps_size s.2 buf buffer len offset hbuf
      h0 h512 ho hmax w hw
    exact ⟨a, b, c, hc, by rw [hcl, hlen]⟩
  | flush kmalloc =>
    simp only [session_step, Option.map_eq_some'] at hs
    obtain ⟨x, hx, rfl⟩ := hs
    obtain ⟨hsz, b, hb, hbl⟩ := networkfs_file_flush_impl_keeps_size char_signed http kmalloc
      s.1 s.2 buf hbuf x hx
    simp only
    rw [hsz]
    exact ⟨h0, h512, b, hb, by rw [hbl, hlen]⟩

/-- C19.  If an open session holds its 513-byte buffer and a size between 0 and 512 (the
length recorded at open, an unsigned value of at most 512), then after every finite
sequence of reads, writes (at non-negative offsets) and flushes the size is still
between 0 and 512 and the buffer still has 513 bytes, so the index at which a flush
stores the terminator is inside the buffer; and a sequence of reads and writes alone
always runs to its end. -/
theorem session_size_at_most_512 {σ : Type} (char_signed : Bool)
    (http : σ → http_request → σ × Int) (ops : List session_op) (s : σ × file) (buf : List Nat)
    (hbuf : s.2.private_data = some buf) (hlen : buf.length = NETWORKFS_API_ENTRY_MAX_FILE + 1)
    (h0 : 0 ≤ s.2.i_size) (h512 : s.2.i_size ≤ 512) (hops : ∀ op ∈ ops, op.in_range) :
    (∀ s1, session_run char_signed http ops s = some s1 →
      0 ≤ s1.2.i_size ∧ s1.2.i_size ≤ 512 ∧
        ∃ b, s1.2.private_data = some b ∧ b.length = NETWORKFS_API_ENTRY_MAX_FILE + 1 ∧
          s1.2.i_size.toNat < b.length) ∧
    ((∀ op ∈ ops, ∀ kmalloc, op ≠ session_op.flush kmalloc) →
      (session_run char_signed http ops s).isSome = true) := by
  have hlen2 : buf.length = 513 := hlen
  clear hlen
  induction ops generalizing s buf with
  | nil =>
    refine ⟨?_, fun _ => rfl⟩
    intro s1 hs1
    simp only [session_run, Option.some.injEq] at hs1
    subst hs1
    refine ⟨h0, h512, buf, hbuf, hlen2, ?_⟩
    omega
  | cons op ops ih =>
    have hop : op.in_range := hops op (List.mem_cons_self _ _)
    have hrest : ∀ o ∈ ops, o.in_range := fun o ho => hops o (List.mem_cons_of_mem _ ho)
    refine ⟨?_, ?_⟩
    · intro s1 hs1
      simp only [session_run, Option.bind_eq_some] at hs1
      obtain ⟨s2, hs2, hrun⟩ := hs1
      obtain ⟨a, b, c, hc, hcl⟩ := session_step_keeps_size char_signed http op s s2 buf hbuf hlen2
        h0 h512 hop hs2
      exact (ih s2 c hc a b hrest hcl).1 s1 hrun
    · intro hnf
      have hstep : ∃ s2, session_step char_signed http op s = some s2 := by
        cases op with
        | read ucap len offset =>
          obtain ⟨ho, hmax, _⟩ := hop
          have := networkfs_file_read_returns s.2 buf ucap len offset hbuf hlen2 h0 h512 ho hmax
          obtain ⟨r, hr⟩ := Option.isSome_iff_exists.mp this
          exact ⟨s, by simp only [session_step, hr, Option.map_some']⟩
        | write buffer len offset =>
          obtain ⟨ho, hmax, hn⟩ := hop
          have := networkfs_file_write_returns s.2 buf buffer len offset hbuf hlen2 ho hmax hn
          obtain ⟨r, hr⟩ := Option.isSome_iff_exists.mp this
          exact ⟨(s.1, r.filp), by simp only [session_step, hr, Option.map_some']⟩
        | flush kmalloc => exact absurd rfl (hnf _ (List.mem_cons_self _ _) kmalloc)
      obtain ⟨s2, hs2⟩ := hstep
      obtain ⟨a, b, c, hc, hcl⟩ := session_step_keeps_size char_signed http op s s2 buf hbuf hlen2
        h0 h512 hop hs2
      simp only [session_run, hs2, Option.some_bind]
      exact (ih s2 c hc a b hrest hcl).2 (fun o ho k => hnf o (List.mem_cons_of_mem _ ho) k)


/-! ## The local round trip -/

/-- C21, the claim as stated fails.  After the block 1, 2, 3 is written at offset 0, a
read of 3 bytes at offset 0 into a buffer that cannot be written returns `-EFAULT`, not 3;
and into a writable buffer it stores four bytes, the block and the byte at index 3. -/
theorem write_then_read_not_exact :
    (write_then_read ⟨some (List.replicate 513 7), 0, 1000, 0, false⟩ [1, 2, 3] 0 0).map
        (fun r => r.ret) = some (-EFAULT)
    ∧ (write_then_read ⟨some (List.replicate 513 7), 0, 1000, 0, false⟩ [1, 2, 3] 0 16).map
        (fun r => (r.ret, r.to_user)) = some (3, [1, 2, 3, 7]) := by
  refine ⟨by decide, by decide⟩

/-- C21, amended.  On a session that holds the 513-byte content buffer with a size
between 0 and 512, for every offset `0 ≤ o < 512` and every block `d` of length
`n ≤ 512 - o`: the write of `d` at `o` followed by the read of `n` bytes at `o` returns,
and when `copy_to_user` reports no byte left uncopied the read returns `n`, advances the
offset by `n`, and the first `n` bytes stored at the caller are exactly `d`; the two
operations leave the state of any transport as it was. -/
theorem write_then_read_round_trip {σ : Type} (char_signed : Bool)
    (http : σ → http_request → σ × Int) (st : σ) (filp : file) (buf d : List Nat) (o : Int)
    (ucap : Nat)
    (hbuf : filp.private_data = some buf) (hlen : buf.length = NETWORKFS_API_ENTRY_MAX_FILE + 1)
    (hs0 : 0 ≤ filp.i_size) (hs : filp.i_size ≤ 512)
    (ho : 0 ≤ o) (ho2 : o < 512) (hd : (d.length : Int) ≤ 512 - o) :
    ∃ r, write_then_read filp d o ucap = some r ∧
      (r.uncopied = 0 →
        r.ret = d.length ∧ r.offset = o + d.length ∧ r.to_user.take d.length = d) ∧
      ∃ f1, session_run char_signed http
          [session_op.write d d.length o, session_op.read ucap d.length o] (st, filp)
        = some (st, f1) := by
  have hlen2 : buf.length = 513 := hlen
  have hmin : min d.length (512 - o.toNat) = d.length := by omega
  have hw := networkfs_file_write_full filp buf d d.length o hbuf hlen2 ho ho2 (by omega)
    (by rw [hmin])
  rw [hmin] at hw
  have hnewlen : (buf.take o.toNat ++ d.take d.length ++ buf.drop (o.toNat + d.length)).length
      = 513 := by
    simp only [List.length_append, List.length_take, List.length_drop]
    omega
  have hmax : max (o + (d.length : Int)) filp.i_size - o ≥ d.length := by omega
  have hr := networkfs_file_read_eq
    { filp with
      private_data := some (buf.take o.toNat ++ d.take d.length ++ buf.drop (o.toNat + d.length)),
      i_size := max (o + (d.length : Int)) filp.i_size }
    (buf.take o.toNat ++ d.take d.length ++ buf.drop (o.toNat + d.length)) ucap d.length o
    rfl hnewlen (by simp only; omega) ho (by simp only; omega) (by omega)
  have hrc : min d.length (max (o + (d.length : Int)) filp.i_size - o).toNat = d.length := by
    omega
  simp only [hrc] at hr
  have hwr : write_then_read filp d o ucap
      = networkfs_file_read
          { filp with
            private_data :=
              some (buf.take o.toNat ++ d.take d.length ++ buf.drop (o.toNat + d.length)),
            i_size := max (o + (d.length : Int)) filp.i_size } ucap d.length o := by
    unfold write_then_read
    rw [hw, Option.some_bind]
  rw [hr] at hwr
  refine ⟨_, hwr, ?_,
    ⟨{ filp with
        private_data :=
          some (buf.take o.toNat ++ d.take d.length ++ buf.drop (o.toNat + d.length)),
        i_size := max (o + (d.length : Int)) filp.i_size }, ?_⟩⟩
  · intro hun
    by_cases hcap : d.length + 1 ≤ ucap
    · simp only [hcap, if_true]
      refine ⟨trivial, trivial, ?_⟩
      have htk : (buf.take o.toNat).length = o.toNat := by
        rw [List.length_take]; omega
      rw [List.take_length, List.append_assoc, List.drop_left' htk,
        Nat.min_eq_left hcap, List.take_take, Nat.min_eq_left (Nat.le_succ _), List.take_left]
    · simp only [hcap, if_false] at hun
      omega
  · simp only [session_run, session_step, hw, Option.map_some', Option.some_bind, hr]

/-! ## Instances of the theorems on concrete inputs -/

/-- The round trip of the two bytes `hi` on inode 1000, plain `char` signed. -/
theorem flush_then_open_round_trip_witness :
    (write_flush_reopen true (fun _ => 0) ⟨some (List.replicate 513 0), 0, 1000, 0, false⟩
        [104, 105] ⟨[], []⟩).map (fun x => (x.2.i_size, x.2.private_data.map (List.take 2)))
      = some (2, some [104, 105])
    ∧ ∃ r2 f2, write_flush_reopen true (fun _ => 0)
          ⟨some (List.replicate 513 0), 0, 1000, 0, false⟩ [104, 105] ⟨[], []⟩ = some (r2, f2) ∧
        r2.log = [] ++
          [⟨"write", 0, [("inode", fmt_lu 1000), ("content", spec_encode [104, 105])]⟩,
           ⟨"read", sizeof_content, [("inode", fmt_lu 1000)]⟩] ∧
        f2.i_size = (([104, 105] : List Nat).length : Int) ∧
        ∃ b2, f2.private_data = some b2 ∧ b2.take ([104, 105] : List Nat).length = [104, 105] ∧
          b2.length = NETWORKFS_API_ENTRY_MAX_FILE + 1 :=
  ⟨by decide,
    flush_then_open_round_trip true (fun _ => 0) ⟨some (List.replicate 513 0), 0, 1000, 0, false⟩
      (List.replicate 513 0) [104, 105] ⟨[], []⟩ rfl (by decide) rfl (by decide) (by decide)
      (by decide) (fun _ => by decide) (by decide)⟩

/-- A read of 10 bytes at offset 2, and one at offset 9, of a session of size 4. -/
theorem networkfs_file_read_count_witness :
    networkfs_file_read ⟨some (List.replicate 513 7), 4, 1000, 0, false⟩ 16 10 2
      = some ⟨2, 4, [2, 3, 4], [7, 7, 7], 0⟩
    ∧ (∃ r, networkfs_file_read ⟨some (List.replicate 513 7), 4, 1000, 0, false⟩ 16 10 2 = some r ∧
        r.ret ≠ -EINVAL ∧
        (r.uncopied = 0 →
          r.ret = min ((10 : Nat) : Int) (4 - 2) ∧ r.offset = 2 + min ((10 : Nat) : Int) (4 - 2)))
    ∧ networkfs_file_read ⟨some (List.replicate 513 7), 4, 1000, 0, false⟩ 16 10 9
        = some ⟨-EINVAL, 9, [], [], 0⟩ :=
  ⟨by decide,
    (networkfs_file_read_count ⟨some (List.replicate 513 7), 4, 1000, 0, false⟩
      (List.replicate 513 7) 16 10 2 rfl (by decide) (by decide) (by decide) (by decide)
      (by decide) (by decide)).1 (by decide),
    (networkfs_file_read_count ⟨some (List.replicate 513 7), 4, 1000, 0, false⟩
      (List.replicate 513 7) 16 10 9 rfl (by decide) (by decide) (by decide) (by decide)
      (by decide) (by decide)).2 (by decide)⟩

/-- A write of 5 bytes at offset 510 of a session of size 3: two bytes are stored. -/
theorem networkfs_file_write_within_quota_witness :
    (networkfs_file_write ⟨some (List.replicate 513 7), 3, 1000, 0, false⟩ [1, 2, 3, 4, 5] 5 510).map
        (fun r => (r.ret, r.offset, r.filp.i_size, r.uncopied,
          r.filp.private_data.map (List.drop 509)))
      = some (2, 512, 512, 0, some [7, 1, 2, 7])
    ∧ ∃ r, networkfs_file_write ⟨some (List.replicate 513 7), 3, 1000, 0, false⟩
          [1, 2, 3, 4, 5] 5 510 = some r ∧
        (r.uncopied = 0 →
          r.ret = min ((5 : Nat) : Int) (512 - 510) ∧
          r.offset = 510 + min ((5 : Nat) : Int) (512 - 510) ∧
          r.filp.i_size = max 3 (510 + min ((5 : Nat) : Int) (512 - 510)) ∧
          (510 : Int).toNat + min 5 (512 - (510 : Int).toNat) ≤ 512 ∧
          (([1, 2, 3, 4, 5] : List Nat).take (min 5 (512 - (510 : Int).toNat))).length
            = min 5 (512 - (510 : Int).toNat) ∧
          ∃ new, r.filp.private_data = some new ∧
            new = (List.replicate 513 7).take (510 : Int).toNat
              ++ ([1, 2, 3, 4, 5] : List Nat).take (min 5 (512 - (510 : Int).toNat))
              ++ (List.replicate 513 7).drop ((510 : Int).toNat + min 5 (512 - (510 : Int).toNat)) ∧
            new.length = NETWORKFS_API_ENTRY_MAX_FILE + 1 ∧
            ∀ j, 512 ≤ j → new[j]? = (List.replicate 513 7)[j]?) :=
  ⟨by decide,
    networkfs_file_write_within_quota ⟨some (List.replicate 513 7), 3, 1000, 0, false⟩
      (List.replicate 513 7) [1, 2, 3, 4, 5] 5 510 rfl (by decide) (by decide) (by decide)
      (by decide)⟩

/-- A write at offset 600, over the quota, on a session without a buffer, and a write
at offset 100 on a session with its buffer. -/
theorem networkfs_file_write_quota_witness :
    networkfs_file_write ⟨none, 0, 1000, 0, false⟩ [1, 2] 2 600
      = some ⟨-EDQUOT, 600, ⟨none, 0, 1000, 0, false⟩, 0⟩
    ∧ (∀ r, networkfs_file_write ⟨some (List.replicate 513 7), 3, 1000, 0, false⟩ [1, 2] 2 100
        = some r → r.ret ≠ -EDQUOT)
    ∧ (∃ r, networkfs_file_write ⟨some (List.replicate 513 7), 3, 1000, 0, false⟩ [1, 2] 2 100
        = some r ∧ 0 ≤ r.ret) :=
  ⟨(networkfs_file_write_quota ⟨none, 0, 1000, 0, false⟩ [1, 2] 2 600 (by decide) (by decide)).1
      (by decide),
    (networkfs_file_write_quota ⟨some (List.replicate 513 7), 3, 1000, 0, false⟩ [1, 2] 2 100
      (by decide) (by decide)).2.1 (by decide) (by decide),
    (networkfs_file_write_quota ⟨some (List.replicate 513 7), 3, 1000, 0, false⟩ [1, 2] 2 100
      (by decide) (by decide)).2.2 (by decide) (by decide) (List.replicate 513 7) rfl (by decide)⟩

/-- The enumeration of directory 1000, which lists the file `a` and the directory `b`. -/
theorem networkfs_iterate_emits_witness :
    ∃ ret ctx,
      networkfs_iterate
          (fun _ => some ⟨2, [⟨DT_REG, 1001, [97, 0]⟩, ⟨DT_DIR, 1002, [98, 0]⟩]
            ++ List.replicate 14 ⟨0, 0, []⟩⟩) 1000 999 4 ⟨0, []⟩ = some (ret, ctx) ∧
        ctx.emitted = [⟨[46], 1, 1000, DT_DIR⟩, ⟨[46, 46], 2, 999, DT_DIR⟩]
          ++ (([⟨DT_REG, 1001, [97, 0]⟩, ⟨DT_DIR, 1002, [98, 0]⟩]
            ++ List.replicate 14 ⟨0, 0, []⟩ : List entry).take 2).map
            (fun e => ⟨c_str e.name, strlen e.name, e.ino, e.entry_type⟩) ∧
        ctx.emitted.length = 2 + 2 :=
  networkfs_iterate_emits
    (fun _ => some ⟨2, [⟨DT_REG, 1001, [97, 0]⟩, ⟨DT_DIR, 1002, [98, 0]⟩]
      ++ List.replicate 14 ⟨0, 0, []⟩⟩) 1000 999 4
    ⟨2, [⟨DT_REG, 1001, [97, 0]⟩, ⟨DT_DIR, 1002, [98, 0]⟩] ++ List.replicate 14 ⟨0, 0, []⟩⟩
    (by decide) rfl (by decide) (by decide) (by decide)

/-- A lookup of a 256-byte name, and a lookup of the name `a` that the remote resolves to
the directory 1001. -/
theorem networkfs_lookup_name_limit_witness :
    networkfs_lookup false (recording_http 0 ⟨DT_DIR, 1001⟩) true true (fun _ => 0) [] [] 1000
        (List.replicate 256 97) = some ([], -1, [])
    ∧ ∃ st1 code info,
        recording_http 0 (⟨DT_DIR, 1001⟩ : entry_info) [] ⟨"lookup", sizeof_entries,
          [("parent", fmt_lu 1000),
           ("name", c_str_at (networkfs_api_process_string false (fun _ => 0) [97, 0])
              (NETWORKFS_API_ENTRY_MAX_NAME_LEN * 3 + 1) 0)]⟩ = (st1, code, info) ∧
        networkfs_lookup false (recording_http 0 ⟨DT_DIR, 1001⟩) true true (fun _ => 0) [] []
            1000 [97, 0]
          = some (st1, 0,
              if code = 0 then
                d_add [] [97, 0]
                  (networkfs_get_inode true (NETWORKFS_DTOS info.entry_type) info.ino)
              else []) :=
  ⟨(networkfs_lookup_name_limit false (recording_http 0 ⟨DT_DIR, 1001⟩) true true (fun _ => 0)
      [] [] 1000 (List.replicate 256 97)).1 (by decide),
    (networkfs_lookup_name_limit false (recording_http 0 ⟨DT_DIR, 1001⟩) true true (fun _ => 0)
      [] [] 1000 [97, 0]).2 (by decide) rfl (by decide) (by decide)⟩

/-- The creation of the directory `a` under inode 1000, answered with status 0 and the
new inode number 1005. -/
theorem networkfs_create_impl_status_witness :
    networkfs_mkdir false (recording_http 0 1005) true (fun _ => 0) [] [] 1000 [97, 0]
      = some ([⟨"create", 8, [("parent", [49, 48, 48, 48]), ("name", [37, 54, 49]),
          ("type", c_lit "directory")]⟩], 0, [([97], some ⟨1005, 16895, true⟩)])
    ∧ ∃ st1 code created_ino,
      recording_http 0 1005 [] ⟨"create", sizeof_ino_t,
        [("parent", fmt_lu 1000),
         ("name", c_str_at (networkfs_api_process_string false (fun _ => 0) [97, 0])
            (NETWORKFS_API_ENTRY_MAX_NAME_LEN * 3 + 1) 0),
         ("type", if S_IFDIR = S_IFDIR then c_lit "directory" else c_lit "file")]⟩
        = (st1, code, created_ino) ∧
      networkfs_create_impl false (recording_http 0 1005) true (fun _ => 0) [] [] 1000 [97, 0]
          S_IFDIR
        = some (st1, s32 code,
            if code = 0 then
              (c_str [97, 0], some ⟨created_ino, S_IFDIR ||| S_IRWXUGO, decide (S_IFDIR = S_IFDIR)⟩)
                :: []
            else []) ∧
      (-2147483648 ≤ code → code < 2147483648 → s32 code = code) :=
  ⟨by decide,
    networkfs_create_impl_status false (recording_http 0 1005) (fun _ => 0) [] [] 1000 [97, 0]
      S_IFDIR (Or.inr rfl) (by decide) (by decide)⟩

/-- The removal of the non-empty directory `a`: the remote answers 8. -/
theorem networkfs_remove_impl_status_witness :
    networkfs_rmdir false (recording_http_status 8) (fun _ => 0) [] [([97], none)] 1000 [97, 0]
      = some ([⟨"rmdir", 0, [("parent", [49, 48, 48, 48]), ("name", [37, 54, 49])]⟩], 8,
          [([97], none)])
    ∧ networkfs_unlink false (recording_http_status 8) (fun _ => 0) [] [([97], none)] 1000 [97, 0]
      = some ([⟨"unlink", 0, [("parent", [49, 48, 48, 48]), ("name", [37, 54, 49])]⟩], 8,
          [([97], none)]) :=
  ⟨(networkfs_remove_impl_status false (recording_http_status 8) (fun _ => 0) [] [([97], none)]
      1000 [97, 0] (by decide) (by decide)).2.1,
    (networkfs_remove_impl_status false (recording_http_status 8) (fun _ => 0) [] [([97], none)]
      1000 [97, 0] (by decide) (by decide)).2.2.1⟩

/-- Three operations on a session of size 3: a write of two bytes at offset 510, a read,
and a write beyond the quota. -/
theorem session_size_at_most_512_witness :
    (session_run false (recording_http_status 0)
        [session_op.write [1, 2, 3, 4, 5] 5 510, session_op.read 16 10 0,
         session_op.write [1] 1 600]
        (([] : List http_request), (⟨some (List.replicate 513 7), 3, 1000, 0, false⟩ : file))).map
        (fun s1 => s1.2.i_size) = some 512
    ∧ (∀ s1, session_run false (recording_http_status 0)
        [session_op.write [1, 2, 3, 4, 5] 5 510, session_op.read 16 10 0,
         session_op.write [1] 1 600]
        (([] : List http_request), (⟨some (List.replicate 513 7), 3, 1000, 0, false⟩ : file))
          = some s1 →
        0 ≤ s1.2.i_size ∧ s1.2.i_size ≤ 512 ∧
          ∃ b, s1.2.private_data = some b ∧ b.length = NETWORKFS_API_ENTRY_MAX_FILE + 1 ∧
            s1.2.i_size.toNat < b.length) :=
  ⟨by decide,
    (session_size_at_most_512 false (recording_http_status 0)
      [session_op.write [1, 2, 3, 4, 5] 5 510, session_op.read 16 10 0,
       session_op.write [1] 1 600]
      (([] : List http_request), (⟨some (List.replicate 513 7), 3, 1000, 0, false⟩ : file))
      (List.replicate 513 7) rfl (by decide) (by decide) (by decide)
      (by
        intro op hop
        simp only [List.mem_cons, List.mem_singleton, List.not_mem_nil, or_false] at hop
        rcases hop with rfl | rfl | rfl <;> simp [session_op.in_range])).1⟩

/-- The block 1, 2, 3 written at offset 5 of a session of size 3 and read back into a
buffer of 16 bytes. -/
theorem write_then_read_round_trip_witness :
    write_then_read ⟨some (List.replicate 513 7), 3, 1000, 0, false⟩ [1, 2, 3] 5 16
      = some ⟨3, 8, [5, 6, 7, 8], [1, 2, 3, 7], 0⟩
    ∧ ∃ r, write_then_read ⟨some (List.replicate 513 7), 3, 1000, 0, false⟩ [1, 2, 3] 5 16
          = some r ∧
        (r.uncopied = 0 →
          r.ret = ([1, 2, 3] : List Nat).length ∧ r.offset = 5 + ([1, 2, 3] : List Nat).length ∧
          r.to_user.take ([1, 2, 3] : List Nat).length = [1, 2, 3]) ∧
        ∃ f1, session_run false (recording_http_status 0)
            [session_op.write [1, 2, 3] ([1, 2, 3] : List Nat).length 5,
             session_op.read 16 ([1, 2, 3] : List Nat).length 5]
            (([] : List http_request), (⟨some (List.replicate 513 7), 3, 1000, 0, false⟩ : file))
          = some ([], f1) :=
  ⟨by decide,
    write_then_read_round_trip false (recording_http_status 0) []
      ⟨some (List.replicate 513 7), 3, 1000, 0, false⟩ (List.replicate 513 7) [1, 2, 3] 5 16
      rfl (by decide) (by decide) (by decide) (by decide) (by decide) (by decide)⟩

end networkfs
